import Mathlib

/-!
# Verification of the claude-code-history-exporter content pipeline

Shallow embedding of the repository's content-transformation pipeline:
the mdast/unist document-node model, the inline HTML converter
(`src/content/html.ts`), the markdown helpers (`src/content/markdown.ts`),
the collapsing engine and tool-use renderer (`src/app/claude-formatting.ts`),
the tool-result reconciler and entry classifier (`src/app/chat-processing.ts`),
chat-file utilities (`src/claude-project/claude-project.ts`) and the document
assembler (`src/app/export.ts`).

The external collaborators that the spec declares out of scope (the remark
markdown parser/serializer and JavaScript `Date` handling) are passed in as
explicit function parameters, bundled in the `Ext` structure; everything else
is translated directly from the TypeScript source.
-/

namespace ClaudeExport

/-- A mdast/unist document node (`RootContent` in the source).  The source
manipulates nodes as dynamic objects distinguished by their `type` string;
here each node kind that the repository builds or inspects is a constructor.
The `table` align attribute, which the source sets but never reads, is
omitted. -/
inductive MNode where
  | text (value : String)
  | emphasis (children : List MNode)
  | strong (children : List MNode)
  | inlineCode (value : String)
  | code (lang : Option String) (value : String)
  | link (url : String) (children : List MNode)
  | lineBreak
  | paragraph (children : List MNode)
  | heading (depth : Nat) (children : List MNode)
  | blockquote (children : List MNode)
  | thematicBreak
  | html (value : String)
  | table (children : List MNode)
  | tableRow (children : List MNode)
  | tableCell (children : List MNode)
  deriving Repr

/-- The `type` string of a node, as the JavaScript code sees it
(`node.type`).  A `break` node's type string is `"break"`. -/
def MNode.nodeType : MNode → String
  | .text _ => "text"
  | .emphasis _ => "emphasis"
  | .strong _ => "strong"
  | .inlineCode _ => "inlineCode"
  | .code _ _ => "code"
  | .link _ _ => "link"
  | .lineBreak => "break"
  | .paragraph _ => "paragraph"
  | .heading _ _ => "heading"
  | .blockquote _ => "blockquote"
  | .thematicBreak => "thematicBreak"
  | .html _ => "html"
  | .table _ => "table"
  | .tableRow _ => "tableRow"
  | .tableCell _ => "tableCell"

/-- A DOM node as built by `nodeToElement` in `src/content/html.ts`
(via deno-dom's `createTextNode` / `createElement`). -/
inductive DomNode where
  | textNode (value : String)
  | element (tag : String) (attrs : List (String × String)) (children : List DomNode)
  deriving Repr

/-- Does the character list start with the given pattern? -/
def beginsWith : List Char → List Char → Bool
  | _, [] => true
  | [], _ :: _ => false
  | x :: xs, y :: ys => x == y && beginsWith xs ys

/-- Substring search over character lists (JavaScript
`String.prototype.includes`). -/
def containsSub : List Char → List Char → Bool
  | [], pat => pat.isEmpty
  | x :: xs, pat => beginsWith (x :: xs) pat || containsSub xs pat

/-- Split a string at every occurrence of a separator character
(JavaScript `s.split(sep)` for the single-character separators the code
uses); an empty string yields `[""]`. -/
def splitOnCharAux (c : Char) : List Char → List Char → List String
  | [], acc => [String.mk acc.reverse]
  | x :: xs, acc =>
    if x == c then String.mk acc.reverse :: splitOnCharAux c xs []
    else splitOnCharAux c xs (x :: acc)

def splitOnChar (c : Char) (s : String) : List String :=
  splitOnCharAux c s.data []

/-- `Array.prototype.join(sep)`. -/
def joinSep (sep : String) : List String → String
  | [] => ""
  | [x] => x
  | x :: xs => x ++ sep ++ joinSep sep xs

/-- JavaScript `String.prototype.trim`: strip leading and trailing
whitespace. -/
def jsTrim (s : String) : String :=
  String.mk (((s.data.dropWhile Char.isWhitespace).reverse.dropWhile
    Char.isWhitespace).reverse)

/-- `String.prototype.endsWith`. -/
def strEndsWith (s suffix : String) : Bool :=
  beginsWith s.data.reverse suffix.data.reverse

/-- Drop the last `n` characters. -/
def strDropRight (s : String) (n : Nat) : String :=
  String.mk (s.data.take (s.data.length - n))

/-- HTML escaping of one text character (`&`, `<`, `>`). -/
def escapeHtmlChar (c : Char) : String :=
  if c == '&' then "&amp;"
  else if c == '<' then "&lt;"
  else if c == '>' then "&gt;"
  else String.singleton c

/-- HTML text-content escaping as performed by the DOM serializer when
reading `innerHTML` (`&`, `<`, `>` are escaped in text nodes). -/
def escapeHtmlText (s : String) : String :=
  String.join (s.data.map escapeHtmlChar)

/-- HTML escaping of one attribute character (`&`, `"`). -/
def escapeHtmlAttrChar (c : Char) : String :=
  if c == '&' then "&amp;"
  else if c == '"' then "&quot;"
  else String.singleton c

/-- HTML attribute-value escaping used by the DOM serializer (`&` and `"`). -/
def escapeHtmlAttr (s : String) : String :=
  String.join (s.data.map escapeHtmlAttrChar)

mutual

/-- Serialize one DOM node to HTML, as deno-dom's `innerHTML` does. -/
def renderDom : DomNode → String
  | .textNode v => escapeHtmlText v
  | .element tag attrs children =>
      "<" ++ tag ++ renderAttrs attrs ++ ">" ++ renderDomList children
        ++ "</" ++ tag ++ ">"

/-- Serialize a DOM node's attribute list. -/
def renderAttrs : List (String × String) → String
  | [] => ""
  | (k, v) :: rest => " " ++ k ++ "=\"" ++ escapeHtmlAttr v ++ "\"" ++ renderAttrs rest

/-- Serialize a list of DOM children in order. -/
def renderDomList : List DomNode → String
  | [] => ""
  | d :: rest => renderDom d ++ renderDomList rest

end

mutual

/-- `nodeToElement` from `src/content/html.ts`: convert one unist node to a
DOM element.  `text` nodes become text nodes, `strong`/`link` recurse over
children, `code`/`inlineCode` become `pre`/`code` elements whose text content
is the literal value, and every other node type is a hard error.  In the
source a `text` node without a `value` field yields `null` (skipped by the
caller); in this embedding every `text` constructor carries its value, so the
`none` result is unreachable but the return type keeps the `Option`. -/
def nodeToElement : MNode → Except String (Option DomNode)
  | .text v => .ok (some (.textNode v))
  | .strong children => do
      let elems ← childElements children
      .ok (some (.element "strong" [] elems))
  | .code _ v => .ok (some (.element "pre" [] [.textNode v]))
  | .inlineCode v => .ok (some (.element "code" [] [.textNode v]))
  | .link url children => do
      let elems ← childElements children
      .ok (some (.element "a" [("href", url)] elems))
  | n => .error ("Unsupported unist node type: " ++ n.nodeType)

/-- The child-conversion loops of `nodeToElement`: convert children in order,
appending each non-null element. -/
def childElements : List MNode → Except String (List DomNode)
  | [] => .ok []
  | c :: cs => do
      let e ← nodeToElement c
      let rest ← childElements cs
      match e with
      | some el => .ok (el :: rest)
      | none => .ok rest

end

/-- `unistToHtml` from `src/content/html.ts`: convert a node list to the
`innerHTML` of a container holding the converted children. -/
def unistToHtml (nodes : List MNode) : Except String String := do
  let elems ← childElements nodes
  .ok (renderDomList elems)

/-- The external collaborators that the spec (§1) declares out of scope,
passed to the core as an explicit environment:

* `parseMd` — `remark().use(remarkGfm).parse(text).children`
  (the markdown parser behind `parseMarkdown`);
* `stringify` — `remark().use(remarkGfm).stringify(u("root", nodes))`
  (the serializer behind `stringifyMarkdown`);
* `formatTs` — `formatTimestamp` from `claude-formatting.ts`, whose output
  depends on the process's local timezone (JavaScript `Date`);
* `parseDate` — `new Date(str).getTime()`, also environment-dependent;
  `new Date(0).getTime() = 0` is the Unix epoch;
* `nowTs` — `formatTimestamp(new Date())` at export time. -/
structure Ext where
  parseMd : String → List MNode
  stringify : List MNode → String
  formatTs : String → String
  parseDate : String → Int
  nowTs : String

/-- `stringifyMarkdown` from `src/content/markdown.ts` (delegates to the
external serializer). -/
def stringifyMarkdown (E : Ext) (nodes : List MNode) : String :=
  E.stringify nodes

/-- `createDetailsBlock` from `src/content/markdown.ts`: render the summary
inline via `unistToHtml` (which can throw), serialize the body, and wrap both
in a single raw-HTML `details` node. -/
def createDetailsBlock (E : Ext) (summary : List MNode)
    (contentNodes : List MNode) : Except String (List MNode) := do
  let summaryHtml ← unistToHtml summary
  let contentMarkdown := stringifyMarkdown E contentNodes
  .ok [MNode.html ("<details><summary>" ++ summaryHtml ++ "</summary>\n\n"
    ++ contentMarkdown ++ "\n\n</details>")]

/-- `createMetadataTableNodes` from `src/content/markdown.ts`: a two-column
table with "Property"/"Value" header; empty input yields no nodes. -/
def createMetadataTableNodes (metadata : List (String × String)) : List MNode :=
  if metadata.length = 0 then []
  else
    let rows := metadata.map fun kv =>
      MNode.tableRow [MNode.tableCell [MNode.text kv.1],
        MNode.tableCell [MNode.text kv.2]]
    let headerRow := MNode.tableRow [MNode.tableCell [MNode.text "Property"],
      MNode.tableCell [MNode.text "Value"]]
    [MNode.table (headerRow :: rows)]

/-- JavaScript's `String.prototype.includes`. -/
def jsIncludes (s pat : String) : Bool :=
  containsSub s.data pat.data

/-- The node-classification walk of `processAssistantContent`
(`src/app/claude-formatting.ts` lines 34–64): `paragraphCount` and
`shouldCollapse` are the loop's mutable state; the result is the
`(visibleNodes, collapsedNodes)` pair. -/
def pacGo (paragraphCount : Nat) (shouldCollapse : Bool) :
    List MNode → List MNode × List MNode
  | [] => ([], [])
  | node :: rest =>
    if shouldCollapse then
      let (v, c) := pacGo paragraphCount shouldCollapse rest
      (v, node :: c)
    else if node.nodeType = "paragraph" then
      if paragraphCount + 1 ≤ 3 then
        let (v, c) := pacGo (paragraphCount + 1) shouldCollapse rest
        (node :: v, c)
      else
        let (v, c) := pacGo (paragraphCount + 1) true rest
        (v, node :: c)
    else if node.nodeType = "heading" then
      -- Headings ALWAYS trigger collapse
      let (v, c) := pacGo paragraphCount true rest
      (v, node :: c)
    else if paragraphCount ≥ 3 then
      let (v, c) := pacGo paragraphCount true rest
      (v, node :: c)
    else
      let (v, c) := pacGo paragraphCount shouldCollapse rest
      (node :: v, c)

/-- The `(visibleNodes, collapsedNodes)` split computed by
`processAssistantContent`, starting from the initial loop state. -/
def pacSplit (contentNodes : List MNode) : List MNode × List MNode :=
  pacGo 0 false contentNodes

/-- The `hasDetailsBlocks` check of `processAssistantContent`: is some
collapsed node a raw HTML node whose value contains `"<details>"`? -/
def hasDetailsBlocks (collapsedNodes : List MNode) : Bool :=
  collapsedNodes.any fun node =>
    match node with
    | .html v => jsIncludes v "<details>"
    | _ => false

/-- `processAssistantContent` from `src/app/claude-formatting.ts`: split the
node list into visible and collapsed parts, then either append the collapsed
markdown as a raw fragment (when it already holds a details block) or wrap it
in a "More..." details block. -/
def processAssistantContent (E : Ext) (contentNodes : List MNode) :
    Except String (List MNode) :=
  if contentNodes.length = 0 then .ok []
  else
    let (visibleNodes, collapsedNodes) := pacSplit contentNodes
    if collapsedNodes.length > 0 then
      let collapsedMarkdown := jsTrim (E.stringify collapsedNodes)
      if hasDetailsBlocks collapsedNodes then
        .ok (visibleNodes ++ [MNode.html collapsedMarkdown])
      else do
        let summary := [MNode.text "More..."]
        let detailsContent ← createDetailsBlock E summary collapsedNodes
        .ok (visibleNodes ++ detailsContent)
    else .ok visibleNodes

mutual

/-- A JSON value, modelling the `z.any()` payloads (`input` of a `tool_use`
block, elements of a structured `tool_result` content).  Numbers are
restricted to integers, which covers every value the repository builds or
tests.  Arrays and objects carry their own list-shaped types (a mutual
inductive family) so that recursion over JSON values stays structural. -/
inductive Json where
  | null
  | bool (b : Bool)
  | num (n : Int)
  | str (s : String)
  | arr (elems : JsonList)
  | obj (fields : JsonFields)

/-- The element list of a JSON array. -/
inductive JsonList where
  | nil
  | cons (head : Json) (tail : JsonList)

/-- The key/value field list of a JSON object. -/
inductive JsonFields where
  | nil
  | cons (key : String) (value : Json) (tail : JsonFields)

end

/-- The elements of a JSON array as an ordinary list. -/
def JsonList.toList : JsonList → List Json
  | .nil => []
  | .cons x xs => x :: xs.toList

/-- The fields of a JSON object as an ordinary association list. -/
def JsonFields.toList : JsonFields → List (String × Json)
  | .nil => []
  | .cons k v fs => (k, v) :: fs.toList

/-- JavaScript property access `j[key]` on a decoded JSON value: a field
lookup on objects, `undefined` (here `none`) otherwise. -/
def jGet (j : Json) (key : String) : Option Json :=
  match j with
  | .obj fields => (fields.toList.find? fun f => f.1 == key).map (·.2)
  | _ => none

/-- Optional-chaining access `input?.[key]`. -/
def jGetIn (input : Option Json) (key : String) : Option Json :=
  input.bind fun j => jGet j key

/-- JavaScript truthiness of a JSON value. -/
def jTruthy : Json → Bool
  | .null => false
  | .bool b => b
  | .num n => !(n == 0)
  | .str s => !(s == "")
  | .arr _ => true
  | .obj _ => true

/-- Truthiness of a possibly-`undefined` JSON value. -/
def jTruthyO : Option Json → Bool
  | some j => jTruthy j
  | none => false

/-- Truthiness of an optional string (`undefined` and `""` are falsy). -/
def strTruthy : Option String → Bool
  | some s => !(s == "")
  | none => false

/-- Strict equality `v === "lit"` between a possibly-`undefined` JSON value
and a string literal. -/
def jIsStr (j : Option Json) (lit : String) : Bool :=
  match j with
  | some (.str v) => v == lit
  | _ => false

/-- `Object.keys(v).length` on a decoded JSON value (array keys are the
indices, string keys are the character positions, primitives have none). -/
def jKeysLength : Json → Nat
  | .obj fields => fields.toList.length
  | .arr xs => xs.toList.length
  | .str s => s.length
  | _ => 0

/-- `v?.length || 0` on a possibly-`undefined` JSON value (used for the
`edits` array of a MultiEdit invocation). -/
def jLengthOrZero : Option Json → Nat
  | some (.arr xs) => xs.toList.length
  | some (.str s) => s.length
  | _ => 0

mutual

/-- Template-literal coercion of a JSON value (arrays stringify as their
comma-joined elements, objects as `[object Object]`). -/
def jsTemplateJ : Json → String
  | .null => "null"
  | .bool b => if b then "true" else "false"
  | .num n => toString n
  | .str s => s
  | .arr xs => jsTemplateList xs
  | .obj _ => "[object Object]"

/-- Comma-joined template coercion of a JSON array's elements. -/
def jsTemplateList : JsonList → String
  | .nil => ""
  | .cons x .nil => jsTemplateJ x
  | .cons x xs => jsTemplateJ x ++ "," ++ jsTemplateList xs

end

/-- Template-literal coercion of a possibly-`undefined` JSON value. -/
def jsTemplate : Option Json → String
  | none => "undefined"
  | some j => jsTemplateJ j

/-- A lowercase hexadecimal digit. -/
def hexDigit (n : Nat) : String :=
  if n < 10 then toString n
  else if n = 10 then "a" else if n = 11 then "b" else if n = 12 then "c"
  else if n = 13 then "d" else if n = 14 then "e" else "f"

/-- JSON string-character escaping as performed by `JSON.stringify`. -/
def jsonEscapeChar (c : Char) : String :=
  if c = '"' then "\\\""
  else if c = '\\' then "\\\\"
  else if c = '\n' then "\\n"
  else if c = '\r' then "\\r"
  else if c = '\t' then "\\t"
  else if c = '\x08' then "\\b"
  else if c = '\x0c' then "\\f"
  else if c.toNat < 0x20 then "\\u00" ++ hexDigit (c.toNat / 16) ++ hexDigit (c.toNat % 16)
  else String.singleton c

/-- JSON string-body escaping as performed by `JSON.stringify`. -/
def jsonEscape (s : String) : String :=
  String.join (s.data.map jsonEscapeChar)

/-- The indentation produced by `JSON.stringify(v, null, 2)` at nesting
depth `d`: `2 * d` spaces. -/
def jsonIndent (d : Nat) : String :=
  String.mk (List.replicate (2 * d) ' ')

mutual

/-- `JSON.stringify(v, null, 2)` rendered at nesting depth `d`. -/
def jsonStringifyAt (d : Nat) : Json → String
  | .null => "null"
  | .bool b => if b then "true" else "false"
  | .num n => toString n
  | .str s => "\"" ++ jsonEscape s ++ "\""
  | .arr .nil => "[]"
  | .arr xs =>
      "[\n" ++ jsonArrItems (d + 1) xs ++ "\n" ++ jsonIndent d ++ "]"
  | .obj .nil => "\x7b\x7d"
  | .obj fs =>
      "\x7b\n" ++ jsonObjItems (d + 1) fs ++ "\n" ++ jsonIndent d ++ "\x7d"

/-- The comma-separated, indented lines of a JSON array's elements. -/
def jsonArrItems (d : Nat) : JsonList → String
  | .nil => ""
  | .cons x .nil => jsonIndent d ++ jsonStringifyAt d x
  | .cons x ys => jsonIndent d ++ jsonStringifyAt d x ++ ",\n" ++ jsonArrItems d ys

/-- The comma-separated, indented lines of a JSON object's fields. -/
def jsonObjItems (d : Nat) : JsonFields → String
  | .nil => ""
  | .cons k v .nil => jsonIndent d ++ "\"" ++ jsonEscape k ++ "\": " ++ jsonStringifyAt d v
  | .cons k v gs => jsonIndent d ++ "\"" ++ jsonEscape k ++ "\": "
      ++ jsonStringifyAt d v ++ ",\n" ++ jsonObjItems d gs

end

/-- A content block of a chat message (`ContentBlockSchema` in
`src/claude-project/types.ts`): a record with a `type` tag and the optional
fields the schema admits.  `content` is either a string or an array of
arbitrary JSON values. -/
inductive BlockContent where
  | str (s : String)
  | arr (elems : JsonList)

structure ContentBlock where
  type : String
  text : Option String := none
  thinking : Option String := none
  signature : Option String := none
  id : Option String := none
  name : Option String := none
  input : Option Json := none
  tool_use_id : Option String := none
  content : Option BlockContent := none

/-- `createCodeNode` from `src/app/claude-formatting.ts`: a fenced code
block for multi-line content, inline code otherwise. -/
def createCodeNode (content : String) (language : Option String) : MNode :=
  if jsIncludes content "\n" then
    MNode.code (match language with
      | some l => if l = "" then none else some l
      | none => none) content
  else MNode.inlineCode content

/-- `createToolSummary` from `src/app/claude-formatting.ts`: the
`🔧 **toolName**` label, optionally extended with a string or node-list
description (an empty string description is falsy and ignored). -/
def createToolSummary (toolName : String)
    (description : Option (String ⊕ List MNode)) : List MNode :=
  let content := [MNode.text "🔧 ", MNode.strong [MNode.text toolName]]
  match description with
  | some (.inl s) => if s = "" then content else content ++ [MNode.text (": " ++ s)]
  | some (.inr ns) => content ++ [MNode.text ": "] ++ ns
  | none => content

/-- The status-glyph line of one TodoWrite todo entry. -/
def todoLine (t : Json) : String :=
  (if jIsStr (jGet t "status") "completed" then "✅"
   else if jIsStr (jGet t "status") "in_progress" then "🔄"
   else "⏳") ++ " " ++ jsTemplate (jGet t "content")

/-- The tool-specific summary / extra-nodes branch chain of
`createToolUseNodes` (`src/app/claude-formatting.ts` lines 108–186).
Returns the summary node list and the nodes accumulated before result
handling (non-empty only for TodoWrite).  The TypeError a non-array `todos`
or non-string `file_path`/`command` would raise in JavaScript is modelled as
an error. -/
def toolSummaryAndNodes (E : Ext) (block : ContentBlock) (toolName : String) :
    Except String (List MNode × List MNode) :=
  if toolName = "TodoWrite" ∧ jTruthyO (jGetIn block.input "todos") then
    match jGetIn block.input "todos" with
    | some (.arr todosL) =>
      let todos := todosL.toList
      let completed := (todos.filter fun t => jIsStr (jGet t "status") "completed").length
      let inProgress := (todos.filter fun t => jIsStr (jGet t "status") "in_progress").length
      let pending := (todos.filter fun t => jIsStr (jGet t "status") "pending").length
      let summary := createToolSummary toolName (some (.inl
        ("Updated todo list (" ++ toString completed ++ " completed, "
          ++ toString inProgress ++ " in progress, " ++ toString pending ++ " pending)")))
      let taskSummaries := todos.map todoLine
      let tasksText := "**Tasks:**\\\n" ++ joinSep "\\\n" taskSummaries
      .ok (summary, E.parseMd tasksText)
    | _ => .error "todos.filter is not a function"
  else if toolName = "Read" ∧ jTruthyO (jGetIn block.input "file_path") then
    match jGetIn block.input "file_path" with
    | some (.str fp) =>
      let fileName := ((splitOnChar '/' fp).getLast?).getD ""
      .ok (createToolSummary toolName (some (.inr
        [MNode.text "Read file ", MNode.inlineCode fileName])), [])
    | _ => .error "file_path.split is not a function"
  else if toolName = "Write" ∧ jTruthyO (jGetIn block.input "file_path") then
    match jGetIn block.input "file_path" with
    | some (.str fp) =>
      let fileName := ((splitOnChar '/' fp).getLast?).getD ""
      .ok (createToolSummary toolName (some (.inr
        [MNode.text "Created file ", MNode.inlineCode fileName])), [])
    | _ => .error "file_path.split is not a function"
  else if toolName = "Edit" ∧ jTruthyO (jGetIn block.input "file_path") then
    match jGetIn block.input "file_path" with
    | some (.str fp) =>
      let fileName := ((splitOnChar '/' fp).getLast?).getD ""
      .ok (createToolSummary toolName (some (.inr
        [MNode.text "Edited file ", MNode.inlineCode fileName])), [])
    | _ => .error "file_path.split is not a function"
  else if toolName = "MultiEdit" ∧ jTruthyO (jGetIn block.input "file_path") then
    match jGetIn block.input "file_path" with
    | some (.str fp) =>
      let fileName := ((splitOnChar '/' fp).getLast?).getD ""
      let editCount := jLengthOrZero (jGetIn block.input "edits")
      .ok (createToolSummary toolName (some (.inr
        [MNode.text ("Made " ++ toString editCount ++ " edits to "),
         MNode.inlineCode fileName])), [])
    | _ => .error "file_path.split is not a function"
  else if toolName = "Bash" ∧ jTruthyO (jGetIn block.input "command") then
    match jGetIn block.input "command" with
    | some (.str command) =>
      .ok (createToolSummary toolName (some (.inr
        [createCodeNode command (some "bash")])), [])
    | _ => .error "command.includes is not a function"
  else if toolName = "Glob" ∧ jTruthyO (jGetIn block.input "pattern") then
    .ok (createToolSummary toolName (some (.inr
      [MNode.text "Search pattern ",
       MNode.inlineCode (jsTemplate (jGetIn block.input "pattern"))])), [])
  else if toolName = "Grep" ∧ jTruthyO (jGetIn block.input "pattern") then
    .ok (createToolSummary toolName (some (.inr
      [MNode.text "Search for ",
       MNode.inlineCode (jsTemplate (jGetIn block.input "pattern"))])), [])
  else
    .ok (createToolSummary toolName none, [])

/-- The `toolName = block.name || "unknown_tool"` default. -/
def toolNameOf (block : ContentBlock) : String :=
  match block.name with
  | some n => if n = "" then "unknown_tool" else n
  | none => "unknown_tool"

/-- The raw-parameters part of the collapsible body of `createToolUseNodes`:
a `Parameters:` paragraph plus a JSON code block when the invocation carries
a truthy input with at least one key. -/
def paramParts (block : ContentBlock) : List MNode :=
  match block.input with
  | some input =>
    if jTruthy input ∧ jKeysLength input > 0 then
      [MNode.paragraph [MNode.strong [MNode.text "Parameters:"]],
       MNode.code (some "json") (jsonStringifyAt 0 input)]
    else []
  | none => []

/-- The result-placement step of `createToolUseNodes`
(`src/app/claude-formatting.ts` lines 199–222): given the nodes and
collapsible parts accumulated so far, place a truthy result either openly
after the label (Write/Edit), or in the collapsible body under a
`File Contents:` (Read) or `Result:` (every other tool) paragraph. -/
def placeResult (toolName : String) (result : Option String)
    (nodes collapsibleParts : List MNode) : List MNode × List MNode :=
  if strTruthy result then
    let r := result.getD ""
    if toolName = "Write" ∨ toolName = "Edit" then
      (nodes ++ [MNode.paragraph [MNode.text "📋 ", MNode.strong [MNode.text "Result:"]],
        MNode.code none r], collapsibleParts)
    else if toolName = "Read" then
      (nodes, collapsibleParts ++ [MNode.paragraph [MNode.strong [MNode.text "File Contents:"]],
        MNode.code none r])
    else
      (nodes, collapsibleParts ++ [MNode.paragraph [MNode.strong [MNode.text "Result:"]],
        MNode.code none r])
  else (nodes, collapsibleParts)

/-- `createToolUseNodes` from `src/app/claude-formatting.ts`: build the tool
summary and any TodoWrite task list, assemble the collapsible body from the
parameters and (for most tools) the result, and wrap everything in a details
block — or emit the bare label as raw HTML when the body is empty. -/
def createToolUseNodes (E : Ext) (block : ContentBlock) (result : Option String) :
    Except String (List MNode) := do
  let toolName := toolNameOf block
  let (summary, nodes) ← toolSummaryAndNodes E block toolName
  let collapsibleParts := paramParts block
  let (nodes, collapsibleParts) := placeResult toolName result nodes collapsibleParts
  if collapsibleParts.length > 0 then
    let detailsContent ← createDetailsBlock E summary collapsibleParts
    .ok (detailsContent ++ nodes)
  else
    let h ← unistToHtml summary
    .ok (MNode.html h :: nodes)

/-- Token usage of an assistant message (`UsageSchema`). -/
structure Usage where
  input_tokens : Int
  output_tokens : Int

/-- A chat message's `content`: a bare string or a block list. -/
inductive MsgContent where
  | str (s : String)
  | blocks (bs : List ContentBlock)

/-- A user/assistant chat message (`ChatMessageSchema`), flattened: `etype`
is the entry-level `type` field, `content`/`model`/`usage` come from the
nested `message` object (`model` and `usage` exist only on assistant
messages, hence `Option`).  `toolResults` is the annotation the reconciler
adds (`{ ...entry, toolResults }`); raw decoded entries carry `none`. -/
structure ChatMessage where
  etype : String
  content : MsgContent
  sessionId : String := ""
  cwd : String := ""
  version : String := ""
  timestamp : String := ""
  model : Option String := none
  usage : Option Usage := none
  toolResults : Option (List (String × String)) := none

/-- One decoded log record (`ChatEntrySchema`): a chat message, a system
notice (with its session fields), or a session summary. -/
inductive ChatEntry where
  | msg (m : ChatMessage)
  | system (content sessionId cwd version timestamp : String)
  | summary (summary : String)

/-- A JavaScript `Map<string, string>` as an insertion-ordered association
list; `set` overwrites in place (keeping the key's original position) or
appends. -/
def mapSet (m : List (String × String)) (k v : String) : List (String × String) :=
  if m.any (fun p => p.1 == k) then
    m.map fun p => if p.1 == k then (k, v) else p
  else m ++ [(k, v)]

/-- `Map.get`: the value stored under a key, if any. -/
def mapGet (m : List (String × String)) (k : String) : Option String :=
  (m.find? fun p => p.1 == k).map (·.2)

/-- Truthiness of an optional `tool_result` content (`undefined` and the
empty string are falsy; any array, even empty, is truthy). -/
def bcTruthy : Option BlockContent → Bool
  | none => false
  | some (.str s) => !(s == "")
  | some (.arr _) => true

/-- The payload stored for a `tool_result` block: the string itself, or
`JSON.stringify(content, null, 2)` for structured content. -/
def blockContentString : BlockContent → String
  | .str s => s
  | .arr xs => jsonStringifyAt 0 (Json.arr xs)

/-- The inner block scan of `mergeToolResults`' first pass: record every
`tool_result` block that has a truthy `tool_use_id` and truthy `content`,
later blocks overwriting earlier ones with the same id. -/
def collectBlocks (acc : List (String × String)) (bs : List ContentBlock) :
    List (String × String) :=
  bs.foldl (fun acc2 block =>
    if block.type = "tool_result" ∧ strTruthy block.tool_use_id ∧ bcTruthy block.content then
      mapSet acc2 (block.tool_use_id.getD "")
        (blockContentString (block.content.getD (.str "")))
    else acc2) acc

/-- The per-entry step of `mergeToolResults`' first pass: only user
messages with block-structured content contribute. -/
def collectEntryStep (acc : List (String × String)) : ChatEntry → List (String × String)
  | .msg m =>
    if m.etype = "user" then
      match m.content with
      | .blocks bs => collectBlocks acc bs
      | .str _ => acc
    else acc
  | _ => acc

/-- The first pass of `mergeToolResults` (`src/app/chat-processing.ts`
lines 614–633): collect all tool results from user messages with
block-structured content into the Tool Result Index. -/
def collectToolResults (entries : List ChatEntry) : List (String × String) :=
  entries.foldl collectEntryStep []

/-- Is this entry a user message with block content consisting solely of
`tool_result` blocks?  (The `!hasNonToolResult` skip test of
`mergeToolResults`' second pass; an empty block list also qualifies.) -/
def isToolResultOnly : ChatEntry → Bool
  | .msg m =>
    if m.etype = "user" then
      match m.content with
      | .blocks bs => !(bs.any fun block => !(block.type == "tool_result"))
      | .str _ => false
    else false
  | _ => false

/-- One step of `mergeToolResults`' second pass: skip standalone
tool-result messages, annotate assistant messages with the Tool Result
Index, pass everything else through. -/
def mergeStep (toolResults : List (String × String)) (entry : ChatEntry) :
    Option ChatEntry :=
  if isToolResultOnly entry then none
  else some (match entry with
    | .msg m =>
      if m.etype = "assistant" then .msg { m with toolResults := some toolResults }
      else .msg m
    | e => e)

/-- `mergeToolResults` from `src/app/chat-processing.ts`: collect the Tool
Result Index, then filter and annotate the entry list. -/
def mergeToolResults (entries : List ChatEntry) : List ChatEntry :=
  let toolResults := collectToolResults entries
  entries.filterMap (mergeStep toolResults)

/-- The children of a user-text paragraph: one text node per line with
explicit break nodes between lines. -/
def userTextChildren : List String → List MNode
  | [] => []
  | [l] => [MNode.text l]
  | l :: rest => MNode.text l :: MNode.lineBreak :: userTextChildren rest

/-- The block loop of `extractTextContentAsNodes`: truthy text blocks are
parsed as markdown (assistant) or turned into a line-break-preserving
paragraph (user); `tool_use` blocks render via `createToolUseNodes` with
any result resolved from the Tool Result Index by the block's truthy id;
`tool_result` and `thinking` blocks are skipped. -/
def extractBlockNodes (E : Ext) (toolResults : Option (List (String × String)))
    (isAssistant : Bool) : List ContentBlock → Except String (List MNode)
  | [] => .ok []
  | block :: rest => do
    let nodes ←
      if block.type = "text" ∧ strTruthy block.text then
        if isAssistant then Except.ok (E.parseMd (block.text.getD ""))
        else .ok [MNode.paragraph (userTextChildren (splitOnChar '\n' (block.text.getD "")))]
      else if block.type = "tool_use" then
        let result := match toolResults with
          | some m => if strTruthy block.id then mapGet m (block.id.getD "") else none
          | none => none
        createToolUseNodes E block result
      else .ok []
    let restNodes ← extractBlockNodes E toolResults isAssistant rest
    .ok (nodes ++ restNodes)

/-- `extractTextContentAsNodes` from `src/app/chat-processing.ts`: string
content is first converted to a single text block. -/
def extractTextContentAsNodes (E : Ext) (content : MsgContent)
    (toolResults : Option (List (String × String))) (isAssistant : Bool) :
    Except String (List MNode) :=
  let blocks := match content with
    | .str s => [{ type := "text", text := some s : ContentBlock }]
    | .blocks bs => bs
  extractBlockNodes E toolResults isAssistant blocks

/-- `createChatEntryNodes` from `src/app/chat-processing.ts`: summaries and
system notices get fixed headings and run through the collapsing engine;
user messages get a timestamp heading plus a blockquote; assistant (and any
other) messages run their extracted content through the collapsing engine;
empty content yields no nodes. -/
def createChatEntryNodes (E : Ext) (entry : ChatEntry) : Except String (List MNode) :=
  match entry with
  | .summary s =>
    processAssistantContent E
      [MNode.heading 2 [MNode.text "Summary"], MNode.paragraph [MNode.text s]]
  | .system content _ _ _ timestamp =>
    processAssistantContent E
      [MNode.heading 3 [MNode.text (E.formatTs timestamp)],
       MNode.paragraph [MNode.text "🔧 ", MNode.strong [MNode.text "System"],
         MNode.text (": " ++ content)]]
  | .msg m => do
    let contentNodes ← extractTextContentAsNodes E m.content m.toolResults
      (m.etype == "assistant")
    if contentNodes.length = 0 then .ok []
    else if m.etype = "user" then
      .ok ([MNode.heading 3 [MNode.text (E.formatTs m.timestamp)],
        MNode.blockquote contentNodes])
    else processAssistantContent E contentNodes

/-- `"sessionId" in entry` — true for chat and system entries. -/
def ChatEntry.hasSessionId : ChatEntry → Bool
  | .msg _ => true
  | .system _ _ _ _ _ => true
  | .summary _ => false

/-- The entry-level `type` field. -/
def ChatEntry.etypeOf : ChatEntry → String
  | .msg m => m.etype
  | .system _ _ _ _ _ => "system"
  | .summary _ => "summary"

def ChatEntry.sessionIdOf : ChatEntry → String
  | .msg m => m.sessionId
  | .system _ sid _ _ _ => sid
  | .summary _ => ""

def ChatEntry.cwdOf : ChatEntry → String
  | .msg m => m.cwd
  | .system _ _ c _ _ => c
  | .summary _ => ""

def ChatEntry.versionOf : ChatEntry → String
  | .msg m => m.version
  | .system _ _ _ v _ => v
  | .summary _ => ""

def ChatEntry.timestampOf : ChatEntry → String
  | .msg m => m.timestamp
  | .system _ _ _ _ ts => ts
  | .summary _ => ""

/-- `"model" in msg.message ? msg.message.model : null`. -/
def ChatEntry.modelOf : ChatEntry → Option String
  | .msg m => m.model
  | _ => none

def ChatEntry.usageOf : ChatEntry → Option Usage
  | .msg m => m.usage
  | _ => none

/-- `new Set(xs)` iterated with `Array.from`: deduplication keeping first
occurrences. -/
def dedupAcc (seen : List String) : List String → List String
  | [] => []
  | x :: xs => if seen.contains x then dedupAcc seen xs else x :: dedupAcc (x :: seen) xs

/-- `extractChatMetadata` from `src/claude-project/claude-project.ts`:
session/timing/count/model/token metadata computed over the entries that
carry a `sessionId` (chat and system messages). -/
def extractChatMetadata (entries : List ChatEntry) : List (String × String) :=
  let chatMessages := entries.filter ChatEntry.hasSessionId
  match chatMessages with
  | [] => []
  | firstEntry :: _ =>
    let lastEntry := chatMessages.getLast?.getD firstEntry
    let userMessages := chatMessages.filter fun e => e.etypeOf == "user"
    let assistantMessages := chatMessages.filter fun e => e.etypeOf == "assistant"
    let models := dedupAcc [] ((assistantMessages.map ChatEntry.modelOf).filterMap
      fun o => match o with
        | some s => if s == "" then none else some s
        | none => none)
    let totalInputTokens := assistantMessages.foldl (fun acc e =>
      acc + (match e.usageOf with | some u => u.input_tokens | none => 0)) (0 : Int)
    let totalOutputTokens := assistantMessages.foldl (fun acc e =>
      acc + (match e.usageOf with | some u => u.output_tokens | none => 0)) (0 : Int)
    let joinedModels := joinSep ", " models
    [("Session ID", firstEntry.sessionIdOf),
     ("Working Directory", firstEntry.cwdOf),
     ("Claude Code Version", firstEntry.versionOf),
     ("Start Time", firstEntry.timestampOf),
     ("End Time", lastEntry.timestampOf),
     ("Total Messages", toString entries.length),
     ("User Messages", toString userMessages.length),
     ("Assistant Messages", toString assistantMessages.length),
     ("Models Used", if joinedModels = "" then "Unknown" else joinedModels),
     ("Total Input Tokens", toString totalInputTokens),
     ("Total Output Tokens", toString totalOutputTokens),
     ("Total Tokens", toString (totalInputTokens + totalOutputTokens))]

/-- `basename` from the path library: the last path segment. -/
def basename (p : String) : String :=
  ((splitOnChar '/' p).getLast?).getD ""

/-- `basename(p, ext)`: the last path segment with a trailing extension
removed (kept when the whole segment equals the extension, as in Node). -/
def basenameExt (p ext : String) : String :=
  let b := basename p
  if b = ext then b
  else if strEndsWith b ext then strDropRight b ext.data.length else b

/-- A chat file, as the core sees it after I/O: its path and the outcome of
reading it.  `.error msg` models an unreadable file (`Deno.readTextFile`
threw `msg`); `.ok lines` models a readable file's non-blank lines, each
either a decoded entry or `none` for a line that fails `JSON.parse` or
`ChatEntrySchema` validation. -/
structure ChatFile where
  path : String
  data : Except String (List (Option ChatEntry))

/-- `"timestamp" in entry` plus the field itself: chat and system entries
carry a timestamp, summary entries do not. -/
def entryTimestamp : ChatEntry → Option String
  | .msg m => some m.timestamp
  | .system _ _ _ _ ts => some ts
  | .summary _ => none

/-- The line loop of `getChatStartTime`: the first line that decodes to an
entry carrying a timestamp gives `new Date(timestamp)`; malformed lines and
entries without a timestamp are skipped; no such line gives the epoch. -/
def firstTimestamp (E : Ext) : List (Option ChatEntry) → Int
  | [] => 0
  | none :: rest => firstTimestamp E rest
  | some e :: rest =>
    match entryTimestamp e with
    | some ts => E.parseDate ts
    | none => firstTimestamp E rest

/-- `getChatStartTime` from `src/claude-project/claude-project.ts`, composed
with `.getTime()` (the sort key the caller computes): the Unix epoch `0` for
unreadable files, empty files, and files with no timestamped decodable
record. -/
def getChatStartTime (E : Ext) (data : Except String (List (Option ChatEntry))) : Int :=
  match data with
  | .error _ => 0
  | .ok lines =>
    if lines.length = 0 then 0
    else firstTimestamp E lines

/-- Stable insertion: place `x` before the first element of
greater-or-equal key. -/
def orderedInsertKey {α : Type} (key : α → Int) (x : α) : List α → List α
  | [] => [x]
  | y :: ys => if key x ≤ key y then x :: y :: ys else y :: orderedInsertKey key x ys

/-- Stable insertion sort by an integer key.  `Array.prototype.sort` with
the comparator `(a, b) => a.startTime - b.startTime` is a stable ascending
sort (ECMAScript 2019), and a stable sort with respect to a total preorder
is extensionally unique, so insertion sort is a faithful model. -/
def insertionSortKey {α : Type} (key : α → Int) : List α → List α
  | [] => []
  | x :: xs => orderedInsertKey key x (insertionSortKey key xs)

/-- `sortChatFilesByTime` from `src/claude-project/claude-project.ts`:
chat files in ascending order of start time (the per-file reads happen
concurrently but all results are awaited before the sort, so only the sort
key matters). -/
def sortChatFilesByTime (E : Ext) (chatFiles : List ChatFile) : List ChatFile :=
  insertionSortKey (fun cf => getChatStartTime E cf.data) chatFiles

/-- The CLI options the document builder receives. -/
structure AppCliOptions where
  chats : Option (List String) := none
  output : Option String := none

/-- JavaScript `parts.slice(-2, -1)[0]`. -/
def jsSliceNeg2Neg1 (parts : List String) : Option String :=
  let n := parts.length
  let start := n - 2
  let stop := n - 1
  ((parts.drop start).take (stop - start)).head?

/-- The project-name expression of `buildMarkdownDocument`
(`basename(chatFiles[0]).split("/").slice(-2, -1)[0] || "Chat"`); since a
basename contains no slash, the slice is empty and this always evaluates to
`"Chat"` — the computation is modelled verbatim anyway. -/
def exportProjectName (firstPath : String) : String :=
  match jsSliceNeg2Neg1 (splitOnChar '/' (basename firstPath)) with
  | some s => if s = "" then "Chat" else s
  | none => "Chat"

/-- `createExportMetadata` from `src/app/chat-processing.ts`. -/
def createExportMetadata (E : Ext) (projectName : String) (chatFiles : List ChatFile)
    (options : AppCliOptions) : List (String × String) :=
  let chatCount := chatFiles.length
  let selectedChats := match options.chats with
    | some cs => cs.length
    | none => chatCount
  [("Project Name", projectName),
   ("Export Date", E.nowTs),
   ("Total Chat Files", toString chatCount),
   ("Exported Chats", toString selectedChats),
   ("Output Format", "Markdown")]

/-- `formattedMetadata[key] = formatTimestamp(formattedMetadata[key])`
guarded by the key's truthiness, on the insertion-ordered record. -/
def formatMetaKey (E : Ext) (m : List (String × String)) (key : String) :
    List (String × String) :=
  match mapGet m key with
  | some v =>
      if v == "" then m
      else m.map fun p => if p.1 == key then (p.1, E.formatTs p.2) else p
  | none => m

/-- The per-entry rendering loop inside `buildMarkdownDocument`'s `try`
block: accumulate each entry's nodes onto the nodes pushed so far, stopping
with the thrown message at the first entry whose rendering fails (the
already-pushed nodes remain in the document). -/
def renderEntriesAcc (E : Ext) : List ChatEntry → List MNode → List MNode × Option String
  | [], acc => (acc, none)
  | e :: rest, acc =>
    match createChatEntryNodes E e with
    | .ok ns => renderEntriesAcc E rest (acc ++ ns)
    | .error msg => (acc, some msg)

/-- The body of `buildMarkdownDocument`'s per-chat `try` block
(`src/app/export.ts` lines 64–105): decode the file (malformed lines were
already skipped by `parseJsonlFile`, so only an unreadable file throws
here), push the formatted metadata table, reconcile tool results, and
render each entry; the result is the nodes pushed before any failure plus
the caught error message, if one was thrown. -/
def chatTryBody (E : Ext) (data : Except String (List (Option ChatEntry))) :
    List MNode × Option String :=
  match data with
  | .error e => ([], some e)
  | .ok lines =>
    let entries := lines.filterMap id
    let metadata := extractChatMetadata entries
    let formattedMetadata := formatMetaKey E (formatMetaKey E metadata "Start Time") "End Time"
    let metadataNodes := createMetadataTableNodes formattedMetadata
    let processedEntries := mergeToolResults entries
    renderEntriesAcc E processedEntries metadataNodes

/-- The `## Chat: {id}` heading of one chat section. -/
def chatHeading (cf : ChatFile) : MNode :=
  MNode.heading 2 [MNode.text ("Chat: " ++ basenameExt cf.path ".jsonl")]

/-- The inline error paragraph of a failed chat. -/
def errorChatParagraph (msg : String) : MNode :=
  MNode.paragraph [MNode.emphasis [MNode.text ("Error processing this chat: " ++ msg)]]

/-- One iteration of `buildMarkdownDocument`'s chat loop: the chat heading,
the nodes pushed by the `try` body, the error paragraph if the body threw,
and the trailing separator. -/
def processChatFile (E : Ext) (cf : ChatFile) : List MNode :=
  let (bodyNodes, err) := chatTryBody E cf.data
  [chatHeading cf] ++ bodyNodes ++
    (match err with
     | some msg => [errorChatParagraph msg]
     | none => []) ++ [MNode.thematicBreak]

/-- The document prologue of `buildMarkdownDocument`: the title heading,
plus (for multi-chat exports only) the export metadata table and a break. -/
def docHeader (E : Ext) (title : String) (chatFiles : List ChatFile)
    (options : AppCliOptions) : List MNode :=
  [MNode.heading 1 [MNode.text title]] ++
    (if chatFiles.length > 1 then
      createMetadataTableNodes (createExportMetadata E
        (exportProjectName ((chatFiles.head?.map ChatFile.path).getD "")) chatFiles options)
        ++ [MNode.thematicBreak]
     else [])

/-- `buildMarkdownDocument` from `src/app/export.ts`, at document-node
level: prologue, then the chats in chronological order, each contributing
its section. -/
def buildMarkdownDocument (E : Ext) (title : String) (chatFiles : List ChatFile)
    (options : AppCliOptions) : List MNode :=
  docHeader E title chatFiles options
    ++ ((sortChatFilesByTime E chatFiles).map (processChatFile E)).flatten

/-- The serialized document `buildMarkdownDocument` returns. -/
def buildMarkdownDocumentText (E : Ext) (title : String) (chatFiles : List ChatFile)
    (options : AppCliOptions) : String :=
  stringifyMarkdown E (buildMarkdownDocument E title chatFiles options)

/-! ### Helpers for stating properties, and concrete fixtures -/

/-- Number of paragraph nodes in a list (used to state the collapsing
threshold). -/
def countParas (l : List MNode) : Nat :=
  (l.filter fun n => n.nodeType == "paragraph").length

/-- A chat entry with its reconciler annotation removed (for comparing
record sequences modulo the `toolResults` field). -/
def stripToolResults : ChatEntry → ChatEntry
  | .msg m => .msg { m with toolResults := none }
  | e => e

/-- Attach the Tool Result Index to assistant messages (the effect of
`mergeToolResults`' second pass on one surviving entry). -/
def annotateWith (toolResults : List (String × String)) : ChatEntry → ChatEntry
  | .msg m =>
    if m.etype = "assistant" then .msg { m with toolResults := some toolResults }
    else .msg m
  | e => e

/-- The `toolResults` annotation of the first entry of a list (a projection
used to exhibit annotation differences). -/
def headToolResults : List ChatEntry → Option (List (String × String))
  | .msg m :: _ => m.toolResults
  | _ => none

mutual

/-- Is a node built only from the types the inline HTML converter supports
(`text`, `strong`, `code`, `inlineCode`, `link`, recursively)? -/
def supportedNode : MNode → Bool
  | .text _ => true
  | .inlineCode _ => true
  | .code _ _ => true
  | .strong children => supportedList children
  | .link _ children => supportedList children
  | _ => false

/-- All nodes in the list are supported. -/
def supportedList : List MNode → Bool
  | [] => true
  | n :: ns => supportedNode n && supportedList ns

end

/-- The openly-rendered result nodes for Write/Edit tools:
`📋 **Result:**` paragraph plus a code block. -/
def openResultNodes (r : String) : List MNode :=
  [MNode.paragraph [MNode.text "📋 ", MNode.strong [MNode.text "Result:"]],
   MNode.code none r]

/-- A concrete external environment used to evaluate theorems at concrete
inputs: the parser returns no nodes, the serializer returns the empty
string, timestamps format to themselves, and a date string parses to its
length in milliseconds. -/
def extW : Ext where
  parseMd := fun _ => []
  stringify := fun _ => ""
  formatTs := id
  parseDate := fun t => (t.length : Int)
  nowTs := "now"

/-- Fixture: an assistant message whose only content block is a `tool_use`
of id `t1`, tool name `Foo`. -/
def fixToolUseBlock : ContentBlock :=
  { type := "tool_use", id := some "t1", name := some "Foo" }

def fixAsst : ChatEntry :=
  .msg { etype := "assistant", content := .blocks [fixToolUseBlock] }

/-- Fixture: a user message whose only content block is a `tool_result`
for `t1` with payload `"result text"`. -/
def fixUserToolResult : ChatEntry :=
  .msg { etype := "user",
         content := .blocks [{ type := "tool_result", tool_use_id := some "t1",
                               content := some (.str "result text") }] }

/-- Fixture: a user message whose only content block is a `tool_result`
without a `tool_use_id`, carrying the payload `"orphan payload"`. -/
def fixUserOrphan : ChatEntry :=
  .msg { etype := "user",
         content := .blocks [{ type := "tool_result",
                               content := some (.str "orphan payload") }] }

/-- Fixture: a user message whose only content block is a `tool_result`
for `t9` with empty string content. -/
def fixUserEmptyContent : ChatEntry :=
  .msg { etype := "user",
         content := .blocks [{ type := "tool_result", tool_use_id := some "t9",
                               content := some (.str "") }] }

/-- Fixture: a user message carrying two `tool_result` blocks that share
the id `t1` (payloads `"a"` then `"b"`). -/
def fixUserTwoResults : ChatEntry :=
  .msg { etype := "user",
         content := .blocks [{ type := "tool_result", tool_use_id := some "t1",
                               content := some (.str "a") },
                             { type := "tool_result", tool_use_id := some "t1",
                               content := some (.str "b") }] }

/-- Fixture: a user message with a single `tool_result` for `t1`, payload
`"a"`. -/
def fixUserResA : ChatEntry :=
  .msg { etype := "user",
         content := .blocks [{ type := "tool_result", tool_use_id := some "t1",
                               content := some (.str "a") }] }

/-- Fixture: a user message with a single `tool_result` for `t1`, payload
`"b"`. -/
def fixUserResB : ChatEntry :=
  .msg { etype := "user",
         content := .blocks [{ type := "tool_result", tool_use_id := some "t1",
                               content := some (.str "b") }] }



/-- Fixture: a chat file that reads successfully but contains no lines. -/
def fixFileA : ChatFile := ⟨"a.jsonl", .ok []⟩

/-- Fixture: a chat file whose first line decodes to a user message with
timestamp `"ab"` (start time 2 under `extW.parseDate`). -/
def fixFileB : ChatFile :=
  ⟨"b.jsonl", .ok [some (.msg { etype := "user", content := .str "hi",
                                timestamp := "ab" })]⟩

/-! ## Lemmas about the collapsing engine -/

theorem pacGo_true (pc : Nat) : ∀ l : List MNode, pacGo pc true l = ([], l)
  | [] => rfl
  | n :: rest => by
    simp [pacGo, pacGo_true pc rest]

theorem pacGo_cons_para_vis (pc : Nat) (rest : List MNode) (node : MNode)
    (hp : node.nodeType = "paragraph") (hc : pc + 1 ≤ 3) :
    pacGo pc false (node :: rest) =
      (node :: (pacGo (pc + 1) false rest).1, (pacGo (pc + 1) false rest).2) := by
  simp [pacGo, hp, hc]

theorem pacGo_cons_para_col (pc : Nat) (rest : List MNode) (node : MNode)
    (hp : node.nodeType = "paragraph") (hc : ¬ pc + 1 ≤ 3) :
    pacGo pc false (node :: rest) = ([], node :: rest) := by
  simp [pacGo, hp, hc, pacGo_true]

theorem pacGo_cons_heading (pc : Nat) (rest : List MNode) (node : MNode)
    (_hp : ¬ node.nodeType = "paragraph") (hh : node.nodeType = "heading") :
    pacGo pc false (node :: rest) = ([], node :: rest) := by
  simp [pacGo, hh, pacGo_true]

theorem pacGo_cons_other_col (pc : Nat) (rest : List MNode) (node : MNode)
    (hp : ¬ node.nodeType = "paragraph") (hh : ¬ node.nodeType = "heading")
    (hge : pc ≥ 3) :
    pacGo pc false (node :: rest) = ([], node :: rest) := by
  simp [pacGo, hp, hh, hge, pacGo_true]

theorem pacGo_cons_other_vis (pc : Nat) (rest : List MNode) (node : MNode)
    (hp : ¬ node.nodeType = "paragraph") (hh : ¬ node.nodeType = "heading")
    (hge : ¬ pc ≥ 3) :
    pacGo pc false (node :: rest) =
      (node :: (pacGo pc false rest).1, (pacGo pc false rest).2) := by
  simp [pacGo, hp, hh, hge]

/-- The visible part of the split is a prefix of the input and the
collapsed part is the matching suffix. -/
theorem pacGo_take_drop : ∀ (l : List MNode) (pc : Nat),
    ∃ k, pacGo pc false l = (l.take k, l.drop k)
  | [], _ => ⟨0, rfl⟩
  | node :: rest, pc => by
    by_cases hp : node.nodeType = "paragraph"
    · by_cases hc : pc + 1 ≤ 3
      · obtain ⟨k, hk⟩ := pacGo_take_drop rest (pc + 1)
        exact ⟨k + 1, by simp [pacGo_cons_para_vis pc rest node hp hc, hk]⟩
      · exact ⟨0, by simp [pacGo_cons_para_col pc rest node hp hc]⟩
    · by_cases hh : node.nodeType = "heading"
      · exact ⟨0, by simp [pacGo_cons_heading pc rest node hp hh]⟩
      · by_cases hge : pc ≥ 3
        · exact ⟨0, by simp [pacGo_cons_other_col pc rest node hp hh hge]⟩
        · obtain ⟨k, hk⟩ := pacGo_take_drop rest pc
          exact ⟨k + 1, by simp [pacGo_cons_other_vis pc rest node hp hh hge, hk]⟩

/-- No heading node is ever placed in the visible list. -/
theorem pacGo_visible_no_heading : ∀ (l : List MNode) (pc : Nat)
    (n : MNode), n ∈ (pacGo pc false l).1 → n.nodeType ≠ "heading"
  | [], _, n => by simp [pacGo]
  | node :: rest, pc, n => by
    intro h
    by_cases hp : node.nodeType = "paragraph"
    · by_cases hc : pc + 1 ≤ 3
      · rw [pacGo_cons_para_vis pc rest node hp hc] at h
        rcases List.mem_cons.mp h with rfl | h
        · simp [hp]
        · exact pacGo_visible_no_heading rest (pc + 1) n h
      · rw [pacGo_cons_para_col pc rest node hp hc] at h
        simp at h
    · by_cases hh : node.nodeType = "heading"
      · rw [pacGo_cons_heading pc rest node hp hh] at h
        simp at h
      · by_cases hge : pc ≥ 3
        · rw [pacGo_cons_other_col pc rest node hp hh hge] at h
          simp at h
        · rw [pacGo_cons_other_vis pc rest node hp hh hge] at h
          rcases List.mem_cons.mp h with rfl | h
          · exact hh
          · exact pacGo_visible_no_heading rest pc n h

theorem countParas_cons_para {node : MNode} (hp : node.nodeType = "paragraph")
    (l : List MNode) : countParas (node :: l) = countParas l + 1 := by
  simp [countParas, List.filter_cons, hp]

theorem countParas_cons_other {node : MNode} (hp : ¬ node.nodeType = "paragraph")
    (l : List MNode) : countParas (node :: l) = countParas l := by
  simp [countParas, List.filter_cons, hp]

theorem countParas_pos_of_mem {l : List MNode} {n : MNode} (hn : n ∈ l)
    (hp : n.nodeType = "paragraph") : 1 ≤ countParas l := by
  have : n ∈ l.filter fun m => m.nodeType == "paragraph" := by
    simp [List.mem_filter, hn, hp]
  have := List.length_pos.mpr (List.ne_nil_of_mem this)
  simpa [countParas] using this

/-- At most `3 - pc` further paragraphs are made visible. -/
theorem pacGo_countParas_le : ∀ (l : List MNode) (pc : Nat), pc ≤ 3 →
    pc + countParas (pacGo pc false l).1 ≤ 3
  | [], _, h => by simpa [pacGo, countParas]
  | node :: rest, pc, hpc => by
    by_cases hp : node.nodeType = "paragraph"
    · by_cases hc : pc + 1 ≤ 3
      · rw [pacGo_cons_para_vis pc rest node hp hc]
        have ih := pacGo_countParas_le rest (pc + 1) hc
        simp only [countParas, List.filter_cons] at *
        simp [hp] at *
        omega
      · rw [pacGo_cons_para_col pc rest node hp hc]
        simpa [countParas]
    · by_cases hh : node.nodeType = "heading"
      · rw [pacGo_cons_heading pc rest node hp hh]
        simpa [countParas]
      · by_cases hge : pc ≥ 3
        · rw [pacGo_cons_other_col pc rest node hp hh hge]
          simpa [countParas]
        · rw [pacGo_cons_other_vis pc rest node hp hh hge]
          have ih := pacGo_countParas_le rest pc hpc
          simp only [countParas, List.filter_cons] at *
          simp [hp] at *
          omega

/-- Every node at or after the fourth paragraph is collapsed. -/
theorem pacGo_fourth_collapsed : ∀ (l : List MNode) (pc i : Nat), i < l.length →
    4 ≤ pc + countParas (l.take (i + 1)) → (pacGo pc false l).1.length ≤ i
  | [], _, i, hi, _ => by simp at hi
  | node :: rest, pc, i, hi, h4 => by
    by_cases hp : node.nodeType = "paragraph"
    · by_cases hc : pc + 1 ≤ 3
      · rw [pacGo_cons_para_vis pc rest node hp hc]
        match i with
        | 0 =>
          rw [List.take_succ_cons, List.take_zero, countParas_cons_para hp] at h4
          simp [countParas] at h4
          omega
        | i2 + 1 =>
          rw [List.take_succ_cons, countParas_cons_para hp] at h4
          have hi2 : i2 < rest.length := by simpa using hi
          have := pacGo_fourth_collapsed rest (pc + 1) i2 hi2 (by omega)
          simpa using Nat.succ_le_succ this
      · rw [pacGo_cons_para_col pc rest node hp hc]
        simp
    · by_cases hh : node.nodeType = "heading"
      · rw [pacGo_cons_heading pc rest node hp hh]
        simp
      · by_cases hge : pc ≥ 3
        · rw [pacGo_cons_other_col pc rest node hp hh hge]
          simp
        · rw [pacGo_cons_other_vis pc rest node hp hh hge]
          match i with
          | 0 =>
            rw [List.take_succ_cons, List.take_zero, countParas_cons_other hp] at h4
            simp [countParas] at h4
            omega
          | i2 + 1 =>
            rw [List.take_succ_cons, countParas_cons_other hp] at h4
            have hi2 : i2 < rest.length := by simpa using hi
            have := pacGo_fourth_collapsed rest pc i2 hi2 (by omega)
            simpa using Nat.succ_le_succ this

/-- A node stays visible while no heading has occurred and the paragraph
budget is not exhausted. -/
theorem pacGo_visible_of : ∀ (l : List MNode) (pc i : Nat) (hi : i < l.length),
    (∀ n ∈ l.take (i + 1), n.nodeType ≠ "heading") →
    ((l[i].nodeType = "paragraph" ∧ pc + countParas (l.take (i + 1)) ≤ 3) ∨
      (¬ l[i].nodeType = "paragraph" ∧ pc + countParas (l.take (i + 1)) ≤ 2)) →
    i < (pacGo pc false l).1.length
  | [], _, i, hi, _, _ => by simp at hi
  | node :: rest, pc, i, hi, hnh, hdisj => by
    have hH : ¬ node.nodeType = "heading" := by
      apply hnh
      simp [List.take_succ_cons]
    match i with
    | 0 =>
      rcases hdisj with ⟨hp, hle⟩ | ⟨hnp, hle⟩
      · simp only [List.getElem_cons_zero] at hp
        rw [List.take_succ_cons, List.take_zero, countParas_cons_para hp] at hle
        simp [countParas] at hle
        rw [pacGo_cons_para_vis pc rest node hp (by omega)]
        simp
      · simp only [List.getElem_cons_zero] at hnp
        rw [List.take_succ_cons, List.take_zero, countParas_cons_other hnp] at hle
        simp [countParas] at hle
        rw [pacGo_cons_other_vis pc rest node hnp hH (by omega)]
        simp
    | i2 + 1 =>
      have hi2 : i2 < rest.length := by simpa using hi
      have hnh2 : ∀ n ∈ rest.take (i2 + 1), n.nodeType ≠ "heading" := by
        intro n hn
        exact hnh n (by rw [List.take_succ_cons]; exact List.mem_cons_of_mem _ hn)
      have hgetr : (node :: rest)[i2 + 1] = rest[i2] := by
        simp
      by_cases hp : node.nodeType = "paragraph"
      · rw [List.take_succ_cons, countParas_cons_para hp] at hdisj
        rw [hgetr] at hdisj
        have hc : pc + 1 ≤ 3 := by
          rcases hdisj with ⟨_, hle⟩ | ⟨_, hle⟩ <;> omega
        rw [pacGo_cons_para_vis pc rest node hp hc]
        have := pacGo_visible_of rest (pc + 1) i2 hi2 hnh2
          (by rcases hdisj with ⟨h1, h2⟩ | ⟨h1, h2⟩
              · exact Or.inl ⟨h1, by omega⟩
              · exact Or.inr ⟨h1, by omega⟩)
        simpa using Nat.succ_lt_succ this
      · rw [List.take_succ_cons, countParas_cons_other hp] at hdisj
        rw [hgetr] at hdisj
        have hge : ¬ pc ≥ 3 := by
          rcases hdisj with ⟨h1, h2⟩ | ⟨h1, h2⟩
          · have hlen : i2 < (rest.take (i2 + 1)).length := by
              simp only [List.length_take]; omega
            have hmem := List.get_mem (rest.take (i2 + 1)) i2 hlen
            rw [List.get_eq_getElem] at hmem
            simp only [List.getElem_take] at hmem
            have := countParas_pos_of_mem hmem h1
            omega
          · omega
        rw [pacGo_cons_other_vis pc rest node hp hH hge]
        have := pacGo_visible_of rest pc i2 hi2 hnh2 hdisj
        simpa using Nat.succ_lt_succ this

theorem unistToHtml_more : unistToHtml [MNode.text "More..."] = .ok "More..." := rfl

/-- `processAssistantContent` never throws, and its output is the visible
part of the split followed by the collapsed wrapper. -/
theorem processAssistantContent_eq (E : Ext) (nodes : List MNode) :
    processAssistantContent E nodes =
      .ok (if nodes.length = 0 then []
        else (pacSplit nodes).1 ++
          (if (pacSplit nodes).2.length > 0 then
            (if hasDetailsBlocks (pacSplit nodes).2 then
              [MNode.html (jsTrim (E.stringify (pacSplit nodes).2))]
            else [MNode.html ("<details><summary>More...</summary>\n\n"
              ++ E.stringify (pacSplit nodes).2 ++ "\n\n</details>")])
          else [])) := by
  by_cases h0 : nodes.length = 0
  · simp [processAssistantContent, h0]
  · rcases hsplit : pacSplit nodes with ⟨v, c⟩
    by_cases hc : c.length > 0
    · by_cases hd : hasDetailsBlocks c
      · simp [processAssistantContent, h0, hsplit, hc, hd]
      · simp only [processAssistantContent, h0, hsplit, hc, hd, if_false, if_neg,
          gt_iff_lt, if_true, createDetailsBlock, unistToHtml_more, stringifyMarkdown]
        simp [hc, hd]
        rfl
    · simp [processAssistantContent, h0, hsplit, hc]

/-- The output of `processAssistantContent` carries no heading node. -/
theorem processAssistantContent_no_heading (E : Ext) (nodes : List MNode) :
    ∃ out, processAssistantContent E nodes = .ok out ∧
      ∀ n ∈ out, n.nodeType ≠ "heading" := by
  refine ⟨_, processAssistantContent_eq E nodes, ?_⟩
  intro n hn
  by_cases h0 : nodes.length = 0
  · simp [h0] at hn
  · rw [if_neg h0] at hn
    rcases List.mem_append.mp hn with h | h
    · exact pacGo_visible_no_heading nodes 0 n h
    · by_cases hc : (pacSplit nodes).2.length > 0
      · rw [if_pos hc] at h
        by_cases hd : hasDetailsBlocks (pacSplit nodes).2
        · rw [if_pos hd] at h
          simp at h
          subst h
          simp [MNode.nodeType]
        · rw [if_neg hd] at h
          simp at h
          subst h
          simp [MNode.nodeType]
      · rw [if_neg hc] at h
        simp at h


/-! ## Lemmas about the tool-call reconciler -/

theorem stripToolResults_annotateWith (tr : List (String × String)) (e : ChatEntry) :
    stripToolResults (annotateWith tr e) = stripToolResults e := by
  cases e with
  | msg m =>
    by_cases h : m.etype = "assistant" <;> simp [annotateWith, stripToolResults, h]
  | system c sid cw v ts => rfl
  | summary s => rfl

theorem isToolResultOnly_annotateWith (tr : List (String × String)) (e : ChatEntry) :
    isToolResultOnly (annotateWith tr e) = isToolResultOnly e := by
  cases e with
  | msg m =>
    by_cases h : m.etype = "assistant" <;> simp [annotateWith, isToolResultOnly, h]
  | system c sid cw v ts => rfl
  | summary s => rfl

theorem mergeStep_eq_annotateWith (tr : List (String × String)) (e : ChatEntry)
    (h : isToolResultOnly e = false) :
    mergeStep tr e = some (annotateWith tr e) := by
  cases e with
  | msg m =>
    by_cases ha : m.etype = "assistant" <;> simp [mergeStep, annotateWith, h, ha]
  | system c sid cw v ts => simp [mergeStep, annotateWith, h]
  | summary s => simp [mergeStep, annotateWith, h]

theorem mergeStep_some (tr : List (String × String)) (e y : ChatEntry)
    (h : mergeStep tr e = some y) :
    isToolResultOnly e = false ∧ y = annotateWith tr e := by
  by_cases htro : isToolResultOnly e
  · simp [mergeStep, htro] at h
  · have hf : isToolResultOnly e = false := by simpa using htro
    rw [mergeStep_eq_annotateWith tr e hf] at h
    exact ⟨hf, (Option.some_inj.mp h).symm⟩

theorem mergeStep_strip (tr : List (String × String)) (e y : ChatEntry)
    (h : mergeStep tr e = some y) :
    stripToolResults y = stripToolResults e := by
  obtain ⟨-, rfl⟩ := mergeStep_some tr e y h
  exact stripToolResults_annotateWith tr e

/-- Nothing in the reconciled output is a standalone tool-result message. -/
theorem mem_mergeToolResults_not_toolResultOnly (entries : List ChatEntry) :
    ∀ e ∈ mergeToolResults entries, isToolResultOnly e = false := by
  intro e he
  obtain ⟨a, -, ha⟩ := List.mem_filterMap.mp he
  obtain ⟨hf, rfl⟩ := mergeStep_some _ a e ha
  rw [isToolResultOnly_annotateWith]
  exact hf

theorem filterMap_mergeStep_strip_sublist (tr : List (String × String)) :
    ∀ l : List ChatEntry,
      ((l.filterMap (mergeStep tr)).map stripToolResults).Sublist
        (l.map stripToolResults)
  | [] => List.Sublist.refl _
  | e :: rest => by
    rcases h : mergeStep tr e with _ | y
    · simp only [List.filterMap_cons, h, List.map_cons]
      exact (filterMap_mergeStep_strip_sublist tr rest).cons _
    · simp only [List.filterMap_cons, h, List.map_cons, mergeStep_strip tr e y h]
      exact (filterMap_mergeStep_strip_sublist tr rest).cons₂ _

theorem collectEntryStep_annotateWith (tr : List (String × String))
    (acc : List (String × String)) (e : ChatEntry) :
    collectEntryStep acc (annotateWith tr e) = collectEntryStep acc e := by
  cases e with
  | msg m =>
    by_cases h : m.etype = "assistant"
    · simp [annotateWith, collectEntryStep, h]
    · simp [annotateWith, collectEntryStep, h]
  | system c sid cw v ts => rfl
  | summary s => rfl

theorem collectToolResults_map_annotateWith (tr : List (String × String))
    (l : List ChatEntry) :
    collectToolResults (l.map (annotateWith tr)) = collectToolResults l := by
  unfold collectToolResults
  rw [List.foldl_map]
  congr 1
  funext acc e
  exact collectEntryStep_annotateWith tr acc e

theorem annotateWith_annotateWith (tr tr2 : List (String × String)) (e : ChatEntry) :
    annotateWith tr (annotateWith tr2 e) = annotateWith tr e := by
  cases e with
  | msg m =>
    by_cases h : m.etype = "assistant" <;> simp [annotateWith, h]
  | system c sid cw v ts => rfl
  | summary s => rfl

theorem filterMap_mergeStep_eq_map (tr : List (String × String)) :
    ∀ l : List ChatEntry, (∀ e ∈ l, isToolResultOnly e = false) →
      l.filterMap (mergeStep tr) = l.map (annotateWith tr)
  | [], _ => rfl
  | e :: rest, h => by
    have h1 := mergeStep_eq_annotateWith tr e (h e (List.mem_cons_self e rest))
    simp only [List.filterMap_cons, h1, List.map_cons]
    exact congrArg _ (filterMap_mergeStep_eq_map tr rest
      fun x hx => h x (List.mem_cons_of_mem e hx))

/-- On a list with no standalone tool-result messages, reconciliation just
annotates every entry with the collected index. -/
theorem mergeToolResults_eq_map_annotateWith (l : List ChatEntry)
    (h : ∀ e ∈ l, isToolResultOnly e = false) :
    mergeToolResults l = l.map (annotateWith (collectToolResults l)) :=
  filterMap_mergeStep_eq_map (collectToolResults l) l h

/-! ## Claims C1 and C2: the collapsing engine -/

/-- **C1.**  For every input node list, the collapsing engine treats a
heading node as a permanent switch into collapsed mode: no heading node
ever appears in the visible (non-collapsed) portion of
`processAssistantContent`'s output, and for the input
`[paragraph, heading, paragraph]` the visible list is exactly
`[paragraph]` while the collapsed list is `[heading, paragraph]`,
regardless of the 3-paragraph threshold. -/
theorem claim_C1_heading_forces_collapse (E : Ext) (nodes : List MNode)
    (a b c : List MNode) (d : Nat) :
    (∃ out, processAssistantContent E nodes = .ok out ∧
      ∀ n ∈ out, n.nodeType ≠ "heading") ∧
    pacSplit [MNode.paragraph a, MNode.heading d b, MNode.paragraph c] =
      ([MNode.paragraph a], [MNode.heading d b, MNode.paragraph c]) ∧
    processAssistantContent E [MNode.paragraph a, MNode.heading d b, MNode.paragraph c] =
      .ok [MNode.paragraph a,
        MNode.html ("<details><summary>More...</summary>\n\n"
          ++ E.stringify [MNode.heading d b, MNode.paragraph c] ++ "\n\n</details>")] :=
  ⟨processAssistantContent_no_heading E nodes, rfl, rfl⟩

/-- Witness for C1 at a concrete input: with the empty serializer, the
heading and trailing paragraph collapse into the "More..." details
fragment. -/
theorem claim_C1_heading_forces_collapse_witness :
    processAssistantContent extW
        [MNode.paragraph [], MNode.heading 1 [], MNode.paragraph []] =
      .ok [MNode.paragraph [],
        MNode.html "<details><summary>More...</summary>\n\n\n\n</details>"] :=
  (claim_C1_heading_forces_collapse extW [] [] [] [] 1).2.2

/-- **C2.**  On five paragraphs the engine shows exactly the first three
and collapses the last two inside one disclosure block labeled "More...";
in general the split is a prefix/suffix decomposition of the input, at most
3 paragraphs are visible, every node from the 4th paragraph onward is
collapsed, and — while no heading has occurred (C1's rule from the same
walk) — the first 3 paragraphs and any non-paragraph node seen before the
3rd paragraph has been emitted stay visible. -/
theorem claim_C2_collapsing_threshold (E : Ext) (p1 p2 p3 p4 p5 : List MNode)
    (nodes : List MNode) :
    processAssistantContent E [MNode.paragraph p1, MNode.paragraph p2,
        MNode.paragraph p3, MNode.paragraph p4, MNode.paragraph p5] =
      .ok [MNode.paragraph p1, MNode.paragraph p2, MNode.paragraph p3,
        MNode.html ("<details><summary>More...</summary>\n\n"
          ++ E.stringify [MNode.paragraph p4, MNode.paragraph p5] ++ "\n\n</details>")] ∧
    (pacSplit nodes).1 ++ (pacSplit nodes).2 = nodes ∧
    countParas (pacSplit nodes).1 ≤ 3 ∧
    (∀ i, i < nodes.length → 4 ≤ countParas (nodes.take (i + 1)) →
      (pacSplit nodes).1.length ≤ i) ∧
    (∀ i, (hi : i < nodes.length) →
      (∀ n ∈ nodes.take (i + 1), n.nodeType ≠ "heading") →
      ((nodes[i].nodeType = "paragraph" ∧ countParas (nodes.take (i + 1)) ≤ 3) ∨
        (¬ nodes[i].nodeType = "paragraph" ∧ countParas (nodes.take (i + 1)) ≤ 2)) →
      i < (pacSplit nodes).1.length) := by
  refine ⟨rfl, ?_, ?_, ?_, ?_⟩
  · obtain ⟨k, hk⟩ := pacGo_take_drop nodes 0
    rw [pacSplit, hk]
    exact List.take_append_drop k nodes
  · simpa using pacGo_countParas_le nodes 0 (by omega)
  · intro i hi h4
    exact pacGo_fourth_collapsed nodes 0 i hi (by simpa using h4)
  · intro i hi hnh hd
    exact pacGo_visible_of nodes 0 i hi hnh (by simpa using hd)

/-- Witness for C2 at concrete inputs: with four paragraphs the fourth is
collapsed, and a single non-paragraph node stays visible. -/
theorem claim_C2_collapsing_threshold_witness :
    (pacSplit [MNode.paragraph [], MNode.paragraph [], MNode.paragraph [],
      MNode.paragraph []]).1.length ≤ 3 ∧
    0 < (pacSplit [MNode.thematicBreak]).1.length :=
  ⟨(claim_C2_collapsing_threshold extW [] [] [] [] []
      [MNode.paragraph [], MNode.paragraph [], MNode.paragraph [],
        MNode.paragraph []]).2.2.2.1 3 (by decide) (by decide),
   (claim_C2_collapsing_threshold extW [] [] [] [] []
      [MNode.thematicBreak]).2.2.2.2 0 (by decide) (by decide) (by decide)⟩

/-! ## Claims C3, C4, C9: the tool-call reconciler -/

/-- **C3 counterexample.**  Reconciliation is not idempotent as stated:
re-applying `mergeToolResults` to its own output re-collects the Tool
Result Index from the surviving messages only, so an assistant message's
annotation shrinks once the standalone result message that fed it has been
dropped. -/
theorem claim_C3_idempotence_counterexample :
    mergeToolResults (mergeToolResults [fixAsst, fixUserToolResult]) ≠
      mergeToolResults [fixAsst, fixUserToolResult] :=
  fun h => absurd (congrArg headToolResults h) (by decide)

/-- **C3 (amended).**  The reconciler is order-preserving — the surviving
records appear in the output in their input order (a sublist modulo the
`toolResults` annotation) — and idempotent up to that annotation: a second
application returns the same record sequence (annotations recomputed from
the surviving messages), and from the second application on the result is a
true fixpoint. -/
theorem claim_C3_reconciler_order_and_idempotence (entries : List ChatEntry) :
    ((mergeToolResults entries).map stripToolResults).Sublist
      (entries.map stripToolResults) ∧
    (mergeToolResults (mergeToolResults entries)).map stripToolResults =
      (mergeToolResults entries).map stripToolResults ∧
    mergeToolResults (mergeToolResults (mergeToolResults entries)) =
      mergeToolResults (mergeToolResults entries) := by
  have hout := mem_mergeToolResults_not_toolResultOnly entries
  have h2 : mergeToolResults (mergeToolResults entries) =
      (mergeToolResults entries).map
        (annotateWith (collectToolResults (mergeToolResults entries))) :=
    mergeToolResults_eq_map_annotateWith _ hout
  refine ⟨filterMap_mergeStep_strip_sublist _ entries, ?_, ?_⟩
  · rw [h2, List.map_map]
    congr 1
    funext e
    exact stripToolResults_annotateWith _ e
  · have hmem2 : ∀ e ∈ (mergeToolResults entries).map
        (annotateWith (collectToolResults (mergeToolResults entries))),
        isToolResultOnly e = false := by
      intro e he
      obtain ⟨a, ha, rfl⟩ := List.mem_map.mp he
      rw [isToolResultOnly_annotateWith]
      exact hout a ha
    rw [h2, mergeToolResults_eq_map_annotateWith _ hmem2,
      collectToolResults_map_annotateWith, List.map_map]
    congr 1
    funext e
    exact annotateWith_annotateWith _ _ e

/-- **C4.**  For a chat with one assistant `tool_use` (id `t1`) followed by
a user message containing only the matching `tool_result`, reconciliation
drops the standalone result message and annotates the assistant entry with
`t1 ↦ "result text"`; rendering that assistant content then resolves the
result and builds the disclosure body from the `Result:` paragraph and the
result-text code block.  When two `tool_result` blocks share an id — in one
message or across messages — the later payload wins. -/
theorem claim_C4_tool_reconciliation (E : Ext) :
    mergeToolResults [fixAsst, fixUserToolResult] =
      [.msg { etype := "assistant", content := .blocks [fixToolUseBlock],
              toolResults := some [("t1", "result text")] }] ∧
    extractTextContentAsNodes E (.blocks [fixToolUseBlock])
        (some [("t1", "result text")]) true =
      .ok [MNode.html ("<details><summary>🔧 <strong>Foo</strong></summary>\n\n"
        ++ E.stringify [MNode.paragraph [MNode.strong [MNode.text "Result:"]],
            MNode.code none "result text"] ++ "\n\n</details>")] ∧
    mapGet (collectToolResults [fixUserTwoResults]) "t1" = some "b" ∧
    mapGet (collectToolResults [fixUserResA, fixUserResB]) "t1" = some "b" :=
  ⟨rfl, rfl, by decide, by decide⟩

/-- **C9.**  A user message whose content blocks are all `tool_result` is
dropped even when none of its blocks was recorded in the Tool Result Index
(no surviving entry is such a message), and concretely: a result block
without a `tool_use_id` and one with empty string content are not recorded
(the index stays empty), yet their messages are still dropped, so their
payloads appear nowhere in the reconciled list. -/
theorem claim_C9_unmatched_tool_results_dropped (entries : List ChatEntry) :
    (∀ e ∈ mergeToolResults entries, isToolResultOnly e = false) ∧
    collectToolResults [fixAsst, fixUserOrphan, fixUserEmptyContent] = [] ∧
    mergeToolResults [fixAsst, fixUserOrphan, fixUserEmptyContent] =
      [.msg { etype := "assistant", content := .blocks [fixToolUseBlock],
              toolResults := some [] }] :=
  ⟨mem_mergeToolResults_not_toolResultOnly entries, by decide, rfl⟩

/-- Witness for C9: the surviving annotated assistant entry of a concrete
reconciliation is not a standalone tool-result message. -/
theorem claim_C9_unmatched_tool_results_dropped_witness :
    isToolResultOnly (ChatEntry.msg { etype := "assistant",
                                      content := .blocks [fixToolUseBlock],
                                      toolResults := some [] }) = false :=
  (claim_C9_unmatched_tool_results_dropped [fixAsst]).1 _
    (by rw [show mergeToolResults [fixAsst] =
          [ChatEntry.msg { etype := "assistant",
                           content := .blocks [fixToolUseBlock],
                           toolResults := some [] }] from rfl]
        exact List.mem_singleton.mpr rfl)

/-! ## Claims C7 and C8: the tool-use renderer -/

theorem placeResult_empty (toolName : String) (nodes collapsibleParts : List MNode) :
    placeResult toolName (some "") nodes collapsibleParts = (nodes, collapsibleParts) := by
  simp [placeResult, strTruthy]

theorem placeResult_none (toolName : String) (nodes collapsibleParts : List MNode) :
    placeResult toolName none nodes collapsibleParts = (nodes, collapsibleParts) := by
  simp [placeResult, strTruthy]

/-- **C8.**  The empty string result is treated exactly like an absent
result: `createToolUseNodes` produces the same output (no `Result:` or
`File Contents:` section) for every tool-use block and tool name,
`"Write"` and `"Edit"` included. -/
theorem claim_C8_empty_result_like_absent (E : Ext) (block : ContentBlock) :
    createToolUseNodes E block (some "") = createToolUseNodes E block none := by
  unfold createToolUseNodes
  simp only [placeResult_empty, placeResult_none]

theorem placeResult_write_edit (toolName : String) (r : String) (hr : ¬ r = "")
    (hW : toolName = "Write" ∨ toolName = "Edit")
    (nodes collapsibleParts : List MNode) :
    placeResult toolName (some r) nodes collapsibleParts =
      (nodes ++ openResultNodes r, collapsibleParts) := by
  rcases hW with h | h <;> simp [placeResult, strTruthy, hr, h, openResultNodes]

theorem placeResult_read (r : String) (hr : ¬ r = "")
    (nodes collapsibleParts : List MNode) :
    placeResult "Read" (some r) nodes collapsibleParts =
      (nodes, collapsibleParts ++
        [MNode.paragraph [MNode.strong [MNode.text "File Contents:"]],
         MNode.code none r]) := by
  simp [placeResult, strTruthy, hr]

theorem placeResult_other (toolName : String) (r : String) (hr : ¬ r = "")
    (h1 : ¬ toolName = "Write") (h2 : ¬ toolName = "Edit") (h3 : ¬ toolName = "Read")
    (nodes collapsibleParts : List MNode) :
    placeResult toolName (some r) nodes collapsibleParts =
      (nodes, collapsibleParts ++
        [MNode.paragraph [MNode.strong [MNode.text "Result:"]],
         MNode.code none r]) := by
  simp [placeResult, strTruthy, hr, h1, h2, h3]

/-- **C7.**  When `createToolUseNodes` receives a present (non-empty)
result string: for tool names `Write` and `Edit` the result is rendered
openly — the `📋 **Result:**` paragraph and code block are appended after
the label/details part, outside any disclosure block, and the collapsible
body receives only the parameters; for `Read` the result goes into the
collapsible body under a `File Contents:` paragraph; for every other tool
name it goes into the collapsible body under a `Result:` paragraph. -/
theorem claim_C7_result_placement (E : Ext) (block : ContentBlock) (r : String)
    (summary nodes0 : List MNode) (hr : ¬ r = "")
    (hsum : toolSummaryAndNodes E block (toolNameOf block) = .ok (summary, nodes0)) :
    ((toolNameOf block = "Write" ∨ toolNameOf block = "Edit") →
      createToolUseNodes E block (some r) =
        (if (paramParts block).length > 0 then
          Except.map (fun d => d ++ (nodes0 ++ openResultNodes r))
            (createDetailsBlock E summary (paramParts block))
        else
          Except.map (fun h => MNode.html h :: (nodes0 ++ openResultNodes r))
            (unistToHtml summary))) ∧
    (toolNameOf block = "Read" →
      createToolUseNodes E block (some r) =
        Except.map (fun d => d ++ nodes0)
          (createDetailsBlock E summary (paramParts block ++
            [MNode.paragraph [MNode.strong [MNode.text "File Contents:"]],
             MNode.code none r]))) ∧
    (¬ toolNameOf block = "Write" → ¬ toolNameOf block = "Edit" →
      ¬ toolNameOf block = "Read" →
      createToolUseNodes E block (some r) =
        Except.map (fun d => d ++ nodes0)
          (createDetailsBlock E summary (paramParts block ++
            [MNode.paragraph [MNode.strong [MNode.text "Result:"]],
             MNode.code none r]))) := by
  refine ⟨?_, ?_, ?_⟩
  · intro hW
    unfold createToolUseNodes
    simp only [hsum, bind, Except.bind]
    rw [placeResult_write_edit _ r hr hW]
    by_cases hp : (paramParts block).length > 0
    · rw [if_pos hp, if_pos hp]
      cases hdb : createDetailsBlock E summary (paramParts block) <;>
        simp [hdb, Except.map]
    · rw [if_neg hp, if_neg hp]
      cases hu : unistToHtml summary <;> simp [hu, Except.map]
  · intro hR
    unfold createToolUseNodes
    simp only [hsum, bind, Except.bind]
    rw [hR, placeResult_read r hr]
    have hlen : ((paramParts block) ++
        [MNode.paragraph [MNode.strong [MNode.text "File Contents:"]],
         MNode.code none r]).length > 0 := by simp
    rw [if_pos hlen]
    cases hdb : createDetailsBlock E summary ((paramParts block) ++
        [MNode.paragraph [MNode.strong [MNode.text "File Contents:"]],
         MNode.code none r]) <;> simp [hdb, Except.map]
  · intro h1 h2 h3
    unfold createToolUseNodes
    simp only [hsum, bind, Except.bind]
    rw [placeResult_other _ r hr h1 h2 h3]
    have hlen : ((paramParts block) ++
        [MNode.paragraph [MNode.strong [MNode.text "Result:"]],
         MNode.code none r]).length > 0 := by simp
    rw [if_pos hlen]
    cases hdb : createDetailsBlock E summary ((paramParts block) ++
        [MNode.paragraph [MNode.strong [MNode.text "Result:"]],
         MNode.code none r]) <;> simp [hdb, Except.map]

/-- Witness for C7: a `Write` invocation with no parameters and result
`"out"` renders the bare label followed by the open `📋 **Result:**`
paragraph and code block. -/
theorem claim_C7_result_placement_witness :
    createToolUseNodes extW { type := "tool_use", name := some "Write" } (some "out") =
      .ok [MNode.html "🔧 <strong>Write</strong>",
        MNode.paragraph [MNode.text "📋 ", MNode.strong [MNode.text "Result:"]],
        MNode.code none "out"] := by
  have h := (claim_C7_result_placement extW { type := "tool_use", name := some "Write" }
      "out" (createToolSummary "Write" none) [] (by decide) rfl).1 (Or.inl rfl)
  rw [h]
  rfl

mutual

theorem nodeToElement_ok_of_supported : ∀ n : MNode, supportedNode n = true →
    ∃ r, nodeToElement n = .ok r
  | .text v, _ => ⟨some (.textNode v), rfl⟩
  | .inlineCode v, _ => ⟨some (.element "code" [] [.textNode v]), rfl⟩
  | .code lang v, _ => ⟨some (.element "pre" [] [.textNode v]), rfl⟩
  | .strong children, h => by
    obtain ⟨es, hes⟩ := childElements_ok_of_supported children
      (by simpa [supportedNode] using h)
    exact ⟨some (.element "strong" [] es), by simp [nodeToElement, hes, bind, Except.bind]⟩
  | .link url children, h => by
    obtain ⟨es, hes⟩ := childElements_ok_of_supported children
      (by simpa [supportedNode] using h)
    exact ⟨some (.element "a" [("href", url)] es),
      by simp [nodeToElement, hes, bind, Except.bind]⟩

theorem childElements_ok_of_supported : ∀ l : List MNode, supportedList l = true →
    ∃ es, childElements l = .ok es
  | [], _ => ⟨[], rfl⟩
  | c :: cs, h => by
    have hc : supportedNode c = true := by
      have := h
      simp [supportedList, Bool.and_eq_true] at this
      exact this.1
    have hcs : supportedList cs = true := by
      have := h
      simp [supportedList, Bool.and_eq_true] at this
      exact this.2
    obtain ⟨e, he⟩ := nodeToElement_ok_of_supported c hc
    obtain ⟨es, hes⟩ := childElements_ok_of_supported cs hcs
    cases e with
    | none => exact ⟨es, by simp [childElements, he, hes, bind, Except.bind]⟩
    | some el => exact ⟨el :: es, by simp [childElements, he, hes, bind, Except.bind]⟩

end

/-- **C6.**  The inline-render conversion fails fast: `nodeToElement`
throws for any node whose type is outside
`{text, strong, code, inlineCode, link}`, succeeds on every node built only
from those supported types (likewise `unistToHtml` on lists of them), and
the error is not caught — `createDetailsBlock` propagates it unchanged. -/
theorem claim_C6_inline_render_fail_fast (n : MNode) (nodes : List MNode)
    (E : Ext) (summary body : List MNode) :
    (n.nodeType ∉ (["text", "strong", "code", "inlineCode", "link"] : List String) →
      nodeToElement n = .error ("Unsupported unist node type: " ++ n.nodeType)) ∧
    (supportedNode n = true → ∃ r, nodeToElement n = .ok r) ∧
    (supportedList nodes = true → ∃ h, unistToHtml nodes = .ok h) ∧
    (∀ e, unistToHtml summary = .error e → createDetailsBlock E summary body = .error e) := by
  refine ⟨?_, nodeToElement_ok_of_supported n, ?_, ?_⟩
  · intro hn
    cases n <;> first
      | rfl
      | (exfalso; apply hn; simp [MNode.nodeType])
  · intro h
    obtain ⟨es, hes⟩ := childElements_ok_of_supported nodes h
    exact ⟨renderDomList es, by simp [unistToHtml, hes, bind, Except.bind]⟩
  · intro e he
    simp [createDetailsBlock, he, bind, Except.bind]

/-- Witness for C6 at concrete nodes: a `thematicBreak` is rejected, a
`strong` of supported children converts, and the error propagates through
`createDetailsBlock`. -/
theorem claim_C6_inline_render_fail_fast_witness :
    nodeToElement MNode.thematicBreak =
      .error "Unsupported unist node type: thematicBreak" ∧
    (∃ r, nodeToElement (MNode.strong [MNode.text "x"]) = .ok r) ∧
    createDetailsBlock extW [MNode.emphasis []] [] =
      .error "Unsupported unist node type: emphasis" :=
  ⟨(claim_C6_inline_render_fail_fast MNode.thematicBreak [] extW [] []).1 (by decide),
   (claim_C6_inline_render_fail_fast (MNode.strong [MNode.text "x"]) [] extW [] []).2.1
     (by decide),
   (claim_C6_inline_render_fail_fast MNode.thematicBreak [] extW [MNode.emphasis []] []).2.2.2
     "Unsupported unist node type: emphasis" rfl⟩

theorem processChatFile_error_data (E : Ext) (p msg : String) :
    processChatFile E ⟨p, .error msg⟩ =
      [MNode.heading 2 [MNode.text ("Chat: " ++ basenameExt p ".jsonl")],
       errorChatParagraph msg, MNode.thematicBreak] := rfl

theorem processChatFile_of_tryBody_error (E : Ext) (cf : ChatFile)
    (pushed : List MNode) (err : String)
    (h : chatTryBody E cf.data = (pushed, some err)) :
    processChatFile E cf =
      [chatHeading cf] ++ pushed ++ [errorChatParagraph err, MNode.thematicBreak] := by
  unfold processChatFile
  rw [h]
  simp

/-- **C5.**  Per-chat failure isolation: when one chat file's data throws
during decode, the built document still contains every other chat's full
section in order, and the failing chat's section is its heading followed by
the italic paragraph `Error processing this chat: {message}` and the
separator; more generally, whatever the `try` body pushed before throwing
is followed by that error paragraph, and the export continues. -/
theorem claim_C5_per_chat_failure_isolation (E : Ext) (title : String)
    (options : AppCliOptions) (chatFiles pre post : List ChatFile)
    (badPath msg : String)
    (hsort : sortChatFilesByTime E chatFiles =
      pre ++ ChatFile.mk badPath (.error msg) :: post) :
    buildMarkdownDocument E title chatFiles options =
      docHeader E title chatFiles options
        ++ (pre.map (processChatFile E)).flatten
        ++ [MNode.heading 2 [MNode.text ("Chat: " ++ basenameExt badPath ".jsonl")],
            errorChatParagraph msg, MNode.thematicBreak]
        ++ (post.map (processChatFile E)).flatten ∧
    (∀ cf : ChatFile, ∀ pushed err, chatTryBody E cf.data = (pushed, some err) →
      processChatFile E cf =
        [chatHeading cf] ++ pushed ++ [errorChatParagraph err, MNode.thematicBreak]) := by
  constructor
  · unfold buildMarkdownDocument
    rw [hsort]
    simp [List.map_append, processChatFile_error_data, List.append_assoc]
  · intro cf pushed err h
    exact processChatFile_of_tryBody_error E cf pushed err h

/-- Witness for C5: a single unreadable chat file yields the title, the
chat heading, the inline error paragraph and the separator. -/
theorem claim_C5_per_chat_failure_isolation_witness :
    buildMarkdownDocument extW "T" [⟨"a.jsonl", Except.error "boom"⟩] {} =
      [MNode.heading 1 [MNode.text "T"],
       MNode.heading 2 [MNode.text "Chat: a"],
       errorChatParagraph "boom", MNode.thematicBreak] := by
  have h := (claim_C5_per_chat_failure_isolation extW "T" {}
    [⟨"a.jsonl", Except.error "boom"⟩] [] [] "a.jsonl" "boom" rfl).1
  rw [h]
  rfl

theorem firstTimestamp_zero (E : Ext) : ∀ lines : List (Option ChatEntry),
    (∀ l ∈ lines, ∀ e, l = some e → entryTimestamp e = none) →
    firstTimestamp E lines = 0
  | [], _ => rfl
  | none :: rest, h =>
    firstTimestamp_zero E rest fun l hl e he => h l (List.mem_cons_of_mem _ hl) e he
  | some e :: rest, h => by
    have hts : entryTimestamp e = none := h (some e) (List.mem_cons_self _ _) e rfl
    simp only [firstTimestamp, hts]
    exact firstTimestamp_zero E rest fun l hl e2 he => h l (List.mem_cons_of_mem _ hl) e2 he

theorem mem_orderedInsertKey {α : Type} (key : α → Int) (x z : α) :
    ∀ l : List α, z ∈ orderedInsertKey key x l ↔ z = x ∨ z ∈ l
  | [] => by simp [orderedInsertKey]
  | y :: ys => by
    by_cases h : key x ≤ key y
    · simp only [orderedInsertKey, if_pos h, List.mem_cons]
    · simp only [orderedInsertKey, if_neg h, List.mem_cons,
        mem_orderedInsertKey key x z ys]
      tauto

theorem orderedInsertKey_pairwise {α : Type} (key : α → Int) (x : α) :
    ∀ l : List α, l.Pairwise (fun a b => key a ≤ key b) →
      (orderedInsertKey key x l).Pairwise (fun a b => key a ≤ key b)
  | [], _ => by simp [orderedInsertKey]
  | y :: ys, h => by
    rcases List.pairwise_cons.mp h with ⟨hy, hys⟩
    by_cases hxy : key x ≤ key y
    · simp only [orderedInsertKey, if_pos hxy]
      refine List.pairwise_cons.mpr ⟨?_, h⟩
      intro b hb
      rcases List.mem_cons.mp hb with rfl | hb
      · exact hxy
      · exact le_trans hxy (hy b hb)
    · simp only [orderedInsertKey, if_neg hxy]
      refine List.pairwise_cons.mpr ⟨?_, orderedInsertKey_pairwise key x ys hys⟩
      intro b hb
      rcases (mem_orderedInsertKey key x b ys).mp hb with rfl | hb
      · omega
      · exact hy b hb

theorem insertionSortKey_pairwise {α : Type} (key : α → Int) :
    ∀ l : List α, (insertionSortKey key l).Pairwise (fun a b => key a ≤ key b)
  | [] => List.Pairwise.nil
  | x :: xs => orderedInsertKey_pairwise key x _ (insertionSortKey_pairwise key xs)

theorem orderedInsertKey_append {α : Type} (key : α → Int) (x : α) :
    ∀ l : List α, ∃ l1 l2, l = l1 ++ l2 ∧
      orderedInsertKey key x l = l1 ++ x :: l2 ∧ ∀ y ∈ l1, key y < key x
  | [] => ⟨[], [], rfl, rfl, by simp⟩
  | y :: ys => by
    by_cases h : key x ≤ key y
    · exact ⟨[], y :: ys, rfl, by simp [orderedInsertKey, h], by simp⟩
    · obtain ⟨l1, l2, he, hins, hlt⟩ := orderedInsertKey_append key x ys
      refine ⟨y :: l1, l2, by simp [he], ?_, ?_⟩
      · simp [orderedInsertKey, h, hins]
      · intro z hz
        rcases List.mem_cons.mp hz with rfl | hz
        · omega
        · exact hlt z hz

theorem insertionSortKey_filter_eq {α : Type} (key : α → Int) (t : Int) :
    ∀ l : List α,
      (insertionSortKey key l).filter (fun a => key a == t) =
        l.filter (fun a => key a == t)
  | [] => rfl
  | x :: xs => by
    have ih := insertionSortKey_filter_eq key t xs
    obtain ⟨l1, l2, he, hins, hlt⟩ :=
      orderedInsertKey_append key x (insertionSortKey key xs)
    have hsplit : (insertionSortKey key xs).filter (fun a => key a == t) =
        l1.filter (fun a => key a == t) ++ l2.filter (fun a => key a == t) := by
      rw [he, List.filter_append]
    by_cases hx : key x = t
    · have hl1 : l1.filter (fun a => key a == t) = [] := by
        rw [List.filter_eq_nil_iff]
        intro a ha
        have := hlt a ha
        simp only [beq_iff_eq]
        omega
      have hl2 : l2.filter (fun a => key a == t) = xs.filter (fun a => key a == t) := by
        rw [← ih, hsplit, hl1, List.nil_append]
      rw [insertionSortKey, hins, List.filter_append, List.filter_cons, hl1]
      simp only [hx, beq_self_eq_true, if_true, List.nil_append]
      rw [hl2, List.filter_cons]
      simp [hx]
    · have hpx : (key x == t) = false := by simp [hx]
      rw [insertionSortKey, hins, List.filter_append, List.filter_cons, hpx]
      simp only [Bool.false_eq_true, if_false]
      rw [← List.filter_append, ← he, ih, List.filter_cons, hpx]
      simp

/-- **C10.**  `getChatStartTime` returns the Unix epoch (time 0) for an
unreadable file, an empty file, and a file with no decodable record
carrying a timestamp; consequently `sortChatFilesByTime` places every such
chat before every chat whose first timestamped record is later than the
epoch, and chats with equal start times keep their input order (the
filtered subsequence at any fixed start time is unchanged). -/
theorem claim_C10_start_time_and_sort (E : Ext) (msg : String)
    (lines : List (Option ChatEntry))
    (hl : ∀ l ∈ lines, ∀ e, l = some e → entryTimestamp e = none)
    (chatFiles : List ChatFile) :
    getChatStartTime E (.error msg) = 0 ∧
    getChatStartTime E (.ok []) = 0 ∧
    getChatStartTime E (.ok lines) = 0 ∧
    (∀ i j, (hi : i < (sortChatFilesByTime E chatFiles).length) →
      (hj : j < (sortChatFilesByTime E chatFiles).length) →
      getChatStartTime E ((sortChatFilesByTime E chatFiles)[i]).data = 0 →
      0 < getChatStartTime E ((sortChatFilesByTime E chatFiles)[j]).data →
      i < j) ∧
    (∀ t : Int, (sortChatFilesByTime E chatFiles).filter
        (fun cf => getChatStartTime E cf.data == t) =
      chatFiles.filter (fun cf => getChatStartTime E cf.data == t)) := by
  refine ⟨rfl, rfl, ?_, ?_, ?_⟩
  · show (if lines.length = 0 then 0 else firstTimestamp E lines) = 0
    by_cases h0 : lines.length = 0
    · simp [h0]
    · rw [if_neg h0]
      exact firstTimestamp_zero E lines hl
  · intro i j hi hj h0 hpos
    have hpw := insertionSortKey_pairwise (fun cf => getChatStartTime E cf.data) chatFiles
    rcases lt_trichotomy i j with h | h | h
    · exact h
    · exfalso
      subst h
      rw [h0] at hpos
      exact lt_irrefl 0 hpos
    · exfalso
      have hr := (List.pairwise_iff_getElem.mp hpw) j i hj hi h
      simp only [sortChatFilesByTime] at h0 hpos
      rw [h0] at hr
      omega
  · intro t
    exact insertionSortKey_filter_eq (fun cf => getChatStartTime E cf.data) t chatFiles

/-- Witness for C10 at concrete files: a summary-then-malformed-line file
has epoch start time, the epoch-keyed filter of a concrete sort equals the
input filter, and the epoch file indeed sorts before the timestamped one
(indices 0 < 1). -/
theorem claim_C10_start_time_and_sort_witness :
    getChatStartTime extW (.ok [some (ChatEntry.summary "s"), none]) = 0 ∧
    (sortChatFilesByTime extW [fixFileB, fixFileA]).filter
        (fun cf => getChatStartTime extW cf.data == 0) =
      [fixFileB, fixFileA].filter (fun cf => getChatStartTime extW cf.data == 0) ∧
    (0 : Nat) < 1 := by
  have hl : ∀ l ∈ [some (ChatEntry.summary "s"), none], ∀ e : ChatEntry,
      l = some e → entryTimestamp e = none := by
    intro l hl e he
    subst he
    rcases List.mem_cons.mp hl with h | h
    · injection h with h2
      subst h2
      rfl
    · exact absurd (List.mem_singleton.mp h) (by simp)
  refine ⟨(claim_C10_start_time_and_sort extW "m"
      [some (ChatEntry.summary "s"), none] hl []).2.2.1,
    (claim_C10_start_time_and_sort extW "m"
      [some (ChatEntry.summary "s"), none] hl [fixFileB, fixFileA]).2.2.2.2 0,
    (claim_C10_start_time_and_sort extW "m"
      [some (ChatEntry.summary "s"), none] hl [fixFileB, fixFileA]).2.2.2.1 0 1
      (by decide) (by decide) (by decide) (by decide)⟩

end ClaudeExport
